import Mathlib

/-!
# Contact store: cache-aside protocol, validation and partial update

A shallow embedding of `internal/contacts/contacts.go`.

* Go `string` values are Lean `String`s; the regular-expression and number
  routines work on their character lists.
* `int64` values are `Int`s; the bounds of the type are explicit where the
  code depends on them (`strconv.ParseInt`).
* The relational store and the cache are explicit state; the master and
  the replica connection of the database are one table.  Every call takes
  an `Oracle` saying which of its backend round-trips succeed, returns the
  new state and records the statements and cache commands it sent.
-/

namespace Contacts

/-! ## `strconv` -/

/-- Largest `uint64`. -/
def maxUint64 : Nat := 18446744073709551615

/-- Largest `int64`. -/
def maxInt64 : Int := 9223372036854775807

/-- Smallest `int64`. -/
def minInt64 : Int := -9223372036854775808

/-- Membership in the range of Go's `int64`. -/
def InInt64 (i : Int) : Prop := minInt64 ≤ i ∧ i ≤ maxInt64

instance (i : Int) : Decidable (InInt64 i) := by
  unfold InInt64; exact inferInstance

/-- The byte test `'0' <= c && c <= '9'` of `strconv.ParseUint`. -/
def isDigit (c : Char) : Bool := decide (48 ≤ c.toNat) && decide (c.toNat ≤ 57)

/-- The digit value `c - '0'`. -/
def digitVal (c : Char) : Nat := c.toNat - 48

/-- Outcome of `strconv.ParseUint`: the value with a nil error, a syntax
error, or a range error. -/
inductive UintResult where
  | ok (n : Nat)
  | badSyntax
  | outOfRange
  deriving DecidableEq, Repr

/-- The digit loop of `strconv.ParseUint(s, 10, 64)`: a character that is
not a decimal digit is a syntax error; as soon as the accumulated value
leaves the `uint64` range the loop stops with a range error, without
looking at the characters that follow. -/
def parseUintLoop : List Char → Nat → UintResult
  | [], n => .ok n
  | c :: cs, n =>
    if isDigit c then
      if n * 10 + digitVal c > maxUint64 then .outOfRange
      else parseUintLoop cs (n * 10 + digitVal c)
    else .badSyntax

/-- The call `strconv.ParseUint(s, 10, 64)`: the empty string is a syntax error. -/
def parseUint (cs : List Char) : UintResult :=
  match cs with
  | [] => .badSyntax
  | _ :: _ => parseUintLoop cs 0

/-- Sign handling and range check of `strconv.ParseInt`, after the sign has
been picked off: the magnitude is parsed as a `uint64`, a syntax error gives
0, and a magnitude outside the `int64` range gives the nearest bound. The
second component tells whether the error is nil. -/
def parseIntSigned (neg : Bool) (cs : List Char) : Int × Bool :=
  match parseUint cs with
  | .badSyntax => (0, false)
  | .outOfRange => if neg then (minInt64, false) else (maxInt64, false)
  | .ok un =>
    if !neg && decide ((un : Int) > maxInt64) then (maxInt64, false)
    else if neg && decide ((un : Int) > maxInt64 + 1) then (minInt64, false)
    else (if neg then -(un : Int) else (un : Int), true)

/-- The call `strconv.ParseInt(s, 10, 64)` on the characters of `s`: the
returned value and whether the returned error is nil. -/
def parseIntChars : List Char → Int × Bool
  | [] => (0, false)
  | c :: cs =>
    if c = '+' then parseIntSigned false cs
    else if c = '-' then parseIntSigned true cs
    else parseIntSigned false (c :: cs)

/-- The call `strconv.ParseInt(s, 10, 64)`. -/
def parseInt (s : String) : Int × Bool := parseIntChars s.data

/-- Decimal digits of a natural number, most significant first, built like
`strconv.formatBits`: the last digit is pushed in front of the digits
already produced until the quotient is 0. -/
def natDigits : Nat → Nat → List Char → List Char
  | 0, _, acc => acc
  | fuel + 1, n, acc =>
    if n / 10 = 0 then Nat.digitChar (n % 10) :: acc
    else natDigits fuel (n / 10) (Nat.digitChar (n % 10) :: acc)

/-- Decimal numeral of a natural number. -/
def formatNat (n : Nat) : List Char := natDigits (n + 1) n []

/-- The characters of `strconv.FormatInt(i, 10)`. -/
def formatIntChars (i : Int) : List Char :=
  if i < 0 then '-' :: formatNat i.natAbs else formatNat i.natAbs

/-- The call `strconv.FormatInt(i, 10)`. -/
def formatInt (i : Int) : String := String.mk (formatIntChars i)

/-! ## Regular expressions -/

/-- Abstract syntax of the regular expressions used by `prepareRegex`:
character classes, concatenation, alternation and counted repetition
`r{lo,hi}` (`hi = none` for an open upper bound). -/
inductive Regex where
  | fail
  | eps
  | cls (p : Char → Bool)
  | seq (a b : Regex)
  | alt (a b : Regex)
  | rep (r : Regex) (lo : Nat) (hi : Option Nat)

namespace Regex

/-- Whether the expression matches the empty string. -/
def nullable : Regex → Bool
  | fail => false
  | eps => true
  | cls _ => false
  | seq a b => nullable a && nullable b
  | alt a b => nullable a || nullable b
  | rep r lo _ => decide (lo = 0) || nullable r

/-- Brzozowski derivative: the expression matching what may follow `c`. -/
def deriv : Regex → Char → Regex
  | fail, _ => fail
  | eps, _ => fail
  | cls p, c => if p c then eps else fail
  | seq a b, c =>
    if nullable a then alt (seq (deriv a c) b) (deriv b c) else seq (deriv a c) b
  | alt a b, c => alt (deriv a c) (deriv b c)
  | rep _ _ (some 0), _ => fail
  | rep r lo (some (hi + 1)), c => seq (deriv r c) (rep r (lo - 1) (some hi))
  | rep r lo none, c => seq (deriv r c) (rep r (lo - 1) none)

/-- The whole input is matched by the expression. -/
def matchFull : Regex → List Char → Bool
  | r, [] => nullable r
  | r, c :: cs => matchFull (deriv r c) cs

/-- Some prefix of the input is matched by the expression. -/
def matchStart : Regex → List Char → Bool
  | r, [] => nullable r
  | r, c :: cs => nullable r || matchStart (deriv r c) cs

end Regex

/-- Character range `lo-hi` of a bracket expression. -/
def inRange (lo hi c : Char) : Bool := decide (lo.toNat ≤ c.toNat) && decide (c.toNat ≤ hi.toNat)

/-- The class `[+]`. -/
def clsPlus (c : Char) : Bool := decide (c = '+')

/-- The class `[0-9]`. -/
def clsDigit (c : Char) : Bool := inRange '0' '9' c

/-- The class `[\w ]`: `\w` is `[0-9A-Za-z_]`. -/
def clsWordSpace (c : Char) : Bool :=
  inRange '0' '9' c || inRange 'A' 'Z' c || inRange 'a' 'z' c || decide (c = '_') || decide (c = ' ')

/-- The class `[a-z1-9.-_]`: the items are the ranges `a-z`, `1-9` and `.-_`. -/
def clsEmailLocal (c : Char) : Bool :=
  inRange 'a' 'z' c || inRange '1' '9' c || inRange '.' '_' c

/-- The class `[a-z1-9-]`: the ranges `a-z`, `1-9` and a literal `-`. -/
def clsEmailDomain (c : Char) : Bool :=
  inRange 'a' 'z' c || inRange '1' '9' c || decide (c = '-')

/-- The class `[.]`. -/
def clsDot (c : Char) : Bool := decide (c = '.')

/-- The class holding the single character `@`. -/
def clsAt (c : Char) : Bool := decide (c = '@')

/-- The pattern `^[+]{0,1}[0-9]{8,15}$`, without its anchors. -/
def phoneRegexp : Regex :=
  .seq (.rep (.cls clsPlus) 0 (some 1)) (.rep (.cls clsDigit) 8 (some 15))

/-- The pattern `^[\w ]{3,}$`, without its anchors. -/
def nameRegexp : Regex := .rep (.cls clsWordSpace) 3 none

/-- The pattern `^[a-z1-9.-_]{3,}@[a-z1-9-]+([.][a-z1-9-]+){1,}`, without its anchor. -/
def emailRegexp : Regex :=
  .seq (.rep (.cls clsEmailLocal) 3 none)
    (.seq (.cls clsAt)
      (.seq (.rep (.cls clsEmailDomain) 1 none)
        (.rep (.seq (.cls clsDot) (.rep (.cls clsEmailDomain) 1 none)) 1 none)))

/-- The call `phoneRegexp.MatchString(s)`: the pattern is anchored at both ends. -/
def phoneMatch (s : String) : Bool := Regex.matchFull phoneRegexp s.data

/-- The call `nameRegexp.MatchString(s)`: the pattern is anchored at both ends. -/
def nameMatch (s : String) : Bool := Regex.matchFull nameRegexp s.data

/-- The call `emailRegexp.MatchString(s)`: the pattern is anchored at the
start only, so a match is a prefix of the input. -/
def emailMatch (s : String) : Bool := Regex.matchStart emailRegexp s.data

/-! ## Data model -/

/-- The struct `ContactData`. -/
structure ContactData where
  ID : Int
  Name : String
  Email : String
  Phone : String
  deriving DecidableEq, Repr

/-- The struct `contact`: the handle behind the `Contact` interface. -/
structure contact where
  data : ContactData
  cacheKey : String
  deriving DecidableEq, Repr

/-- The function `validateContact`. -/
def validateContact (input : ContactData) : Bool :=
  if !phoneMatch input.Phone then false
  else if !emailMatch input.Email then false
  else if !nameMatch input.Name then false
  else true

/-- The function `getCacheKey`: `fmt.Sprintf("contact:%v", contactID)`. -/
def getCacheKey (contactID : Int) : String := "contact:" ++ formatInt contactID

/-! ## Backends -/

/-- A Go `map[string]string` as an association list; `len(m) == 0` is the empty list. -/
abbrev FieldMap := List (String × String)

/-- The lookup `val, ok := m[k]`. -/
def FieldMap.get (m : FieldMap) (k : String) : Option String :=
  (m.find? (fun e => decide (e.1 = k))).map Prod.snd

/-- Sets one field of a hash: an existing field is overwritten in place, a
new one is added. -/
def FieldMap.set (m : FieldMap) (k v : String) : FieldMap :=
  if m.any (fun e => decide (e.1 = k)) then m.map (fun e => if e.1 = k then (k, v) else e)
  else m ++ [(k, v)]

/-- The table `contacts(id serial primary key, name, email, phone)`: its
rows and the next value of the `id` sequence. -/
structure Store where
  rows : List ContactData
  nextID : Int
  deriving DecidableEq, Repr

/-- The query `SELECT id, name, email, phone FROM contacts WHERE id = $1`, first row. -/
def Store.selectByID (s : Store) (id : Int) : Option ContactData :=
  s.rows.find? (fun r => decide (r.ID = id))

/-- The statement `INSERT INTO contacts ... VALUES ($1, $2, $3) returning id`:
the new row takes the next value of the sequence. -/
def Store.insert (s : Store) (name email phone : String) : Store :=
  { rows := s.rows ++ [{ ID := s.nextID, Name := name, Email := email, Phone := phone }],
    nextID := s.nextID + 1 }

/-- The statement `UPDATE contacts SET name = $1, email = $2, phone = $3 WHERE id = $4`. -/
def Store.update (s : Store) (name email phone : String) (id : Int) : Store :=
  { s with rows := s.rows.map (fun r =>
      if r.ID = id then { r with Name := name, Email := email, Phone := phone } else r) }

/-- The statement `DELETE FROM contacts WHERE id = $1 LIMIT 1`. -/
def Store.delete (s : Store) (id : Int) : Store :=
  { s with rows := s.rows.eraseP (fun r => decide (r.ID = id)) }

/-- The rows in ascending order of ID (`ORDER BY id ASC`). -/
def Store.sortedRows (s : Store) : List ContactData :=
  s.rows.insertionSort (fun a b => a.ID ≤ b.ID)

/-- The query `SELECT id, name, email, phone FROM contacts ORDER BY id ASC
LIMIT $1 OFFSET $2`, for a limit and an offset that are not negative. -/
def Store.list (s : Store) (limit offset : Nat) : List ContactData :=
  (s.sortedRows.drop offset).take limit

/-- The column `id` is a primary key: no two rows share an ID. -/
def Store.Keyed (s : Store) : Prop := (s.rows.map (fun r => r.ID)).Nodup

instance (s : Store) : Decidable s.Keyed := by
  unfold Store.Keyed; exact inferInstance

/-- The sequence is ahead of every stored ID. -/
def Store.Fresh (s : Store) : Prop := ∀ r ∈ s.rows, r.ID < s.nextID

instance (s : Store) : Decidable s.Fresh := by
  unfold Store.Fresh; exact inferInstance

/-- The cache: the hash stored under each key; a key that does not exist
holds the empty hash. -/
abbrev Cache := String → FieldMap

/-- The cache with no key. -/
def Cache.empty : Cache := fun _ => []

/-- The command `HGETALL key`. -/
def Cache.hgetall (c : Cache) (key : String) : FieldMap := c key

/-- The command `HMSET key field value ...`: the fields are set in the hash
stored under the key, the other fields of that hash are kept. -/
def Cache.hmset (c : Cache) (key : String) (fields : FieldMap) : Cache :=
  Function.update c key (fields.foldl (fun m e => m.set e.1 e.2) (c key))

/-- The command `DEL key`. -/
def Cache.del (c : Cache) (key : String) : Cache := Function.update c key []

/-- The two backends. -/
structure World where
  store : Store
  cache : Cache

/-- Which backend round-trips of one call succeed: the SQL statement, the
transaction commit, and the cache commands `HGETALL`, `HMSET` and `DEL`. -/
structure Oracle where
  stmtOK : Bool
  commitOK : Bool
  hgetallOK : Bool
  hmsetOK : Bool
  delOK : Bool
  deriving DecidableEq, Repr

/-- All cache commands of the call succeed. -/
def Oracle.cacheOK (o : Oracle) : Prop :=
  o.hgetallOK = true ∧ o.hmsetOK = true ∧ o.delOK = true

/-- The oracle under which every round-trip succeeds. -/
def Oracle.allOK : Oracle :=
  { stmtOK := true, commitOK := true, hgetallOK := true, hmsetOK := true, delOK := true }

/-- The non-nil `error` values the package returns. -/
inductive Error where
  /-- The error of a statement the store failed to execute. -/
  | sqlFailure
  /-- The value `sql.ErrNoRows`, returned by a row scan over an empty result. -/
  | errNoRows
  /-- The error of a failed `tx.Commit()`. -/
  | commitFailure
  /-- The value `errors.New("invalid contact data")`. -/
  | invalidContactData
  /-- The value `errors.New("no data is updated")`. -/
  | noDataUpdated
  /-- The value `errors.New("contact data is invalid")`. -/
  | contactDataInvalid
  /-- The value `errors.New("Invalid input")`. -/
  | invalidInput
  deriving DecidableEq, Repr

/-- The backend calls a method makes, in order. The deferred `tx.Rollback()`
is recorded as a call on every path, also after `tx.Commit()`, where the
transaction is already finished and nothing is sent. -/
inductive Event where
  | hgetall (key : String)
  | hmset (key : String) (fields : FieldMap)
  | del (key : String)
  | begin
  | commit
  | rollback
  | selectByID (id : Int)
  | insert (name email phone : String)
  | update (name email phone : String) (id : Int)
  | delete (id : Int)
  | list (limit offset : Int)
  deriving DecidableEq, Repr

/-- The event is an SQL statement (a query or an exec). -/
def Event.isStmt : Event → Bool
  | .selectByID _ => true
  | .insert _ _ _ => true
  | .update _ _ _ _ => true
  | .delete _ => true
  | .list _ _ => true
  | _ => false

/-- The event is a cache command that writes (`HMSET` or `DEL`). -/
def Event.isCacheWrite : Event → Bool
  | .hmset _ _ => true
  | .del _ => true
  | _ => false

/-- The event is a `DEL`. -/
def Event.isDel : Event → Bool
  | .del _ => true
  | _ => false

/-- The call `stmt["get"].QueryRowx(contactID).StructScan(&cData)`: the
error of a failed query, `sql.ErrNoRows` when the result has no row, else
the first row scanned into the struct. -/
def queryRowGet (s : Store) (ok : Bool) (contactID : Int) : Except Error ContactData :=
  if !ok then .error .sqlFailure
  else match s.selectByID contactID with
    | none => .error .errNoRows
    | some r => .ok r

/-- The map `cacheData` that `Get` stores on a miss. -/
def cacheData (d : ContactData) : FieldMap :=
  [("id", formatInt d.ID), ("name", d.Name), ("email", d.Email), ("phone", d.Phone)]

/-- The `else` branch of `Get`: the record rebuilt from a cached map,
starting from the zero value `ContactData{}`; the error of `ParseInt` is dropped. -/
def fromCache (m : FieldMap) : ContactData :=
  { ID := match m.get "id" with
      | some v => (parseInt v).1
      | none => 0
    Name := (m.get "name").getD ""
    Email := (m.get "email").getD ""
    Phone := (m.get "phone").getD "" }

/-! ## Operations -/

/-- Result of `Get` and `Create`: the returned `(Contact, error)` pair (a
nil interface or error is `none`), the backends afterwards and the events sent. -/
structure GetResult where
  contact : Option contact
  err : Option Error
  world : World
  log : List Event

/-- The method `pkgContacts.Get`. -/
def Get (w : World) (o : Oracle) (contactID : Int) : GetResult :=
  let cacheKey := getCacheKey contactID
  -- an error of HGetAll is logged and leaves the map empty
  let cacheMap : FieldMap := if o.hgetallOK then w.cache.hgetall cacheKey else []
  if cacheMap.length = 0 then
    match queryRowGet w.store o.stmtOK contactID with
    | .error e =>
      { contact := none, err := some e, world := w,
        log := [.hgetall cacheKey, .selectByID contactID] }
    | .ok cData =>
      if cData.ID ≠ contactID then
        { contact := none, err := none, world := w,
          log := [.hgetall cacheKey, .selectByID contactID] }
      else
        -- an error of HMSet is logged and leaves the cache as it was
        let cache1 := if o.hmsetOK then w.cache.hmset cacheKey (cacheData cData) else w.cache
        { contact := some { data := cData, cacheKey := cacheKey }, err := none,
          world := { w with cache := cache1 },
          log := [.hgetall cacheKey, .selectByID contactID, .hmset cacheKey (cacheData cData)] }
  else
    { contact := some { data := fromCache cacheMap, cacheKey := cacheKey }, err := none,
      world := w, log := [.hgetall cacheKey] }

/-- The method `pkgContacts.Create`. -/
def Create (w : World) (o : Oracle) (input : ContactData) : GetResult :=
  if !validateContact input then
    { contact := none, err := some .invalidContactData, world := w, log := [] }
  else if !o.stmtOK then
    { contact := none, err := some .sqlFailure, world := w,
      log := [.begin, .insert input.Name input.Email input.Phone, .rollback] }
  else
    let insertID := w.store.nextID
    if !o.commitOK then
      { contact := none, err := some .commitFailure, world := w,
        log := [.begin, .insert input.Name input.Email input.Phone, .commit, .rollback] }
    else
      { contact := some { data := { input with ID := insertID }, cacheKey := getCacheKey insertID },
        err := none,
        world := { w with store := w.store.insert input.Name input.Email input.Phone },
        log := [.begin, .insert input.Name input.Email input.Phone, .commit, .rollback] }

/-- Result of `Update` and `Delete`: the returned error, the receiver
afterwards, the backends afterwards and the events sent. -/
structure MutResult where
  err : Option Error
  self : contact
  world : World
  log : List Event

/-- The merge at the head of `Update`: a non-empty field of the input
replaces the field of the copy of `c.data`. -/
def mergeInput (cur input : ContactData) : ContactData :=
  let d1 := if input.Email ≠ "" then { cur with Email := input.Email } else cur
  let d2 := if input.Phone ≠ "" then { d1 with Phone := input.Phone } else d1
  if input.Name ≠ "" then { d2 with Name := input.Name } else d2

/-- The method `contact.Update`. The result of `tx.Commit()` and of `Del` is dropped. -/
def Update (w : World) (o : Oracle) (c : contact) (input : ContactData) : MutResult :=
  let data := mergeInput c.data input
  if data = c.data then
    { err := some .noDataUpdated, self := c, world := w, log := [] }
  else if !validateContact data then
    { err := some .contactDataInvalid, self := c, world := w, log := [] }
  else if !o.stmtOK then
    { err := some .sqlFailure, self := c, world := w,
      log := [.begin, .update data.Name data.Email data.Phone data.ID, .rollback] }
  else
    let store1 := if o.commitOK then w.store.update data.Name data.Email data.Phone data.ID
      else w.store
    let cache1 := if o.delOK then w.cache.del c.cacheKey else w.cache
    { err := none, self := { c with data := data },
      world := { store := store1, cache := cache1 },
      log := [.begin, .update data.Name data.Email data.Phone data.ID, .commit,
        .del c.cacheKey, .rollback] }

/-- The method `contact.Delete`. The result of `tx.Commit()` and of `Del` is
dropped; the assignment `c = nil` changes the local variable only. -/
def Delete (w : World) (o : Oracle) (c : contact) : MutResult :=
  if !o.stmtOK then
    { err := some .sqlFailure, self := c, world := w,
      log := [.begin, .delete c.data.ID, .rollback] }
  else
    let store1 := if o.commitOK then w.store.delete c.data.ID else w.store
    let cache1 := if o.delOK then w.cache.del c.cacheKey else w.cache
    { err := none, self := c, world := { store := store1, cache := cache1 },
      log := [.begin, .delete c.data.ID, .commit, .del c.cacheKey, .rollback] }

/-- The method `contact.Data`. -/
def Data (c : contact) : ContactData := c.data

/-- The value an `int64` computation yields: the integer reduced to 64 bits, two's complement. -/
def wrapInt64 (i : Int) : Int := (i + 9223372036854775808) % 18446744073709551616 - 9223372036854775808

/-- The call `stmt["list"].Queryx(take, offset)` followed by the scan of the
rows: the error of a failed query, else the rows in the order received. The
database rejects a negative `LIMIT` or `OFFSET`. -/
def queryList (s : Store) (ok : Bool) (take offset : Int) : Except Error (List ContactData) :=
  if !ok then .error .sqlFailure
  else if take < 0 ∨ offset < 0 then .error .sqlFailure
  else .ok (s.list take.toNat offset.toNat)

/-- Result of `List`: the returned slice, which no return statement leaves
nil, the returned error and the events sent. -/
structure ListResult where
  list : List ContactData
  err : Option Error
  log : List Event

/-- The method `pkgContacts.List`; the product `take * (page - 1)` is an `int64`. -/
def pkgContacts.List (w : World) (o : Oracle) (take page : Int) : ListResult :=
  if take ≤ 0 ∨ page ≤ 0 then
    { list := [], err := some .invalidInput, log := [] }
  else
    let offset := wrapInt64 (take * (page - 1))
    match queryList w.store o.stmtOK take offset with
    | .error e => { list := [], err := some e, log := [.list take offset] }
    | .ok rows => { list := rows, err := none, log := [.list take offset] }

/-! ## The handler `ListContact` -/

/-- The default and the bound of `take`: `if take == 0 || take >= 100 { take = 5 }`. -/
def normalizeTake (take : Int) : Int := if take = 0 ∨ take ≥ 100 then 5 else take

/-- The default of `page`: `if page == 0 { page = 1 }`. -/
def normalizePage (page : Int) : Int := if page = 0 then 1 else page

/-- The values `ListContact` passes to `List` for the form values `take`
and `page` of the request (the empty string when absent); the error of
`ParseInt` is dropped. -/
def listArgs (takeValue pageValue : String) : Int × Int :=
  (normalizeTake (parseInt takeValue).1, normalizePage (parseInt pageValue).1)

/-- What the handler writes: the status code and, with status 200, the data of the body. -/
structure Response where
  status : Nat
  data : Option (List ContactData)
  deriving DecidableEq, Repr

/-- The handler `ListContact`: 500 when `List` returns an error, else 200 with the list. -/
def ListContact (w : World) (o : Oracle) (takeValue pageValue : String) : Response :=
  let r := pkgContacts.List w o (listArgs takeValue pageValue).1 (listArgs takeValue pageValue).2
  if r.err ≠ none then { status := 500, data := none }
  else { status := 200, data := some r.list }

/-! ## Runs -/

/-- The backends together with the handles that `Get` and `Create` have returned. -/
structure System where
  world : World
  handles : List contact

/-- One call of `Get`. -/
def System.get (s : System) (o : Oracle) (contactID : Int) : System :=
  let r := Get s.world o contactID
  { world := r.world, handles := r.contact.toList ++ s.handles }

/-- One call of `Create`. -/
def System.create (s : System) (o : Oracle) (input : ContactData) : System :=
  let r := Create s.world o input
  { world := r.world, handles := r.contact.toList ++ s.handles }

/-- One call of `Update` on the handle at position `i`. -/
def System.update (s : System) (o : Oracle) (i : Nat) (input : ContactData) : System :=
  match s.handles[i]? with
  | none => s
  | some c =>
    let r := Update s.world o c input
    { world := r.world, handles := s.handles.set i r.self }

/-- One call of `Delete` on the handle at position `i`. -/
def System.delete (s : System) (o : Oracle) (i : Nat) : System :=
  match s.handles[i]? with
  | none => s
  | some c =>
    let r := Delete s.world o c
    { world := r.world, handles := s.handles.set i r.self }

/-- States reached from an empty cache and a table satisfying `I` by calls
of `Get`, `Create`, `Update` and `Delete` whose oracles satisfy `P`; `Update`
and `Delete` are called on handles returned earlier. -/
inductive Reachable (P : Oracle → Prop) (I : Store → Prop) : System → Prop where
  | init (store : Store) (hf : I store) :
      Reachable P I { world := { store := store, cache := Cache.empty }, handles := [] }
  | get (s : System) (o : Oracle) (contactID : Int) (hs : Reachable P I s) (ho : P o)
      (hid : InInt64 contactID) : Reachable P I (s.get o contactID)
  | create (s : System) (o : Oracle) (input : ContactData) (hs : Reachable P I s) (ho : P o) :
      Reachable P I (s.create o input)
  | update (s : System) (o : Oracle) (i : Nat) (input : ContactData) (hs : Reachable P I s)
      (ho : P o) : Reachable P I (s.update o i input)
  | delete (s : System) (o : Oracle) (i : Nat) (hs : Reachable P I s) (ho : P o) :
      Reachable P I (s.delete o i)

/-! ## Reference notions used to state the properties -/

/-- Value of a string of decimal digits read after the value `acc`. -/
def digitsValue (cs : List Char) (acc : Nat) : Nat :=
  cs.foldl (fun a c => a * 10 + digitVal c) acc

/-- The integer written by an optional `-` followed by decimal digits, with no bound. -/
def decodeIntChars : List Char → Int
  | [] => 0
  | c :: cs => if c = '-' then -(digitsValue cs 0 : Int) else (digitsValue (c :: cs) 0 : Int)

/-- The class of the local part in the words of the specification: a
lowercase letter, a digit, `.`, `-` or `_`. -/
def clsSpecLocal (c : Char) : Bool :=
  inRange 'a' 'z' c || inRange '0' '9' c || decide (c = '.') || decide (c = '-') || decide (c = '_')

/-- The class of a domain label in the words of the specification: a
lowercase letter, a digit or a hyphen. -/
def clsSpecLabel (c : Char) : Bool :=
  inRange 'a' 'z' c || inRange '0' '9' c || decide (c = '-')

/-- The e-mail form in the words of the specification: a local part of at
least 3 characters, `@`, then `label(.label)+`. -/
def specEmailBody : Regex :=
  .seq (.rep (.cls clsSpecLocal) 3 none)
    (.seq (.cls clsAt)
      (.seq (.rep (.cls clsSpecLabel) 1 none)
        (.rep (.seq (.cls clsDot) (.rep (.cls clsSpecLabel) 1 none)) 1 none)))

/-- The string has the e-mail form of the specification, as a whole. -/
def specEmailForm (s : String) : Bool := Regex.matchFull specEmailBody s.data

/-- The sign of a numeral and what follows the sign. -/
def signBody : List Char → Bool × List Char
  | [] => (false, [])
  | c :: cs => if c = '+' then (false, cs) else if c = '-' then (true, cs) else (false, c :: cs)

/-- The string is a decimal integer: an optional sign followed by one or
more decimal digits. -/
def isNumeral (cs : List Char) : Bool :=
  !(signBody cs).2.isEmpty && (signBody cs).2.all isDigit

/-- The integer a decimal numeral denotes, with no bound. -/
def numeralValue (cs : List Char) : Int :=
  if (signBody cs).1 then -(digitsValue (signBody cs).2 0 : Int)
  else (digitsValue (signBody cs).2 0 : Int)

/-- The nearest `int64`. -/
def clampInt64 (i : Int) : Int :=
  if i > maxInt64 then maxInt64 else if i < minInt64 then minInt64 else i

/-- The ID of a cached map in the words of the specification: the `id`
field parsed as a decimal integer, or 0 when the field is absent or is not
a number. -/
def specCachedID (m : FieldMap) : Int :=
  match m.get "id" with
  | none => 0
  | some v => if isNumeral v.data then numeralValue v.data else 0

/-- Every cache entry under a key `contact:<id>` is the field map of the
row stored under that ID. -/
def CacheAgrees (w : World) : Prop :=
  ∀ id : Int, w.cache (getCacheKey id) ≠ [] →
    ∃ r, w.store.selectByID id = some r ∧ w.cache (getCacheKey id) = cacheData r

/-- The handle carries the cache key of its own ID. -/
def HandleKeyed (c : contact) : Prop := c.cacheKey = getCacheKey c.data.ID

instance (c : contact) : Decidable (HandleKeyed c) := by
  unfold HandleKeyed; exact inferInstance

/-- The sequence is ahead of every stored ID and of every cached ID. -/
def SeqAhead (w : World) : Prop :=
  w.store.Fresh ∧ ∀ id : Int, w.cache (getCacheKey id) ≠ [] → id < w.store.nextID

/-- The invariant of the runs whose cache commands succeed. -/
def Coherent (s : System) : Prop :=
  CacheAgrees s.world ∧ ∀ h ∈ s.handles, HandleKeyed h

/-- Any oracle: each round-trip may fail. -/
def anyOracle : Oracle → Prop := fun _ => True

/-- Any table. -/
def anyStore : Store → Prop := fun _ => True

/-- A word character: an ASCII letter, a digit or an underscore. -/
def isWordChar (c : Char) : Bool := c.isAlphanum || c == '_'

/-- The result of `List` in the words of the specification: the rows sorted
by ascending ID, the first `take * (page - 1)` skipped and at most `take` kept. -/
def specList (s : Store) (take page : Int) : List ContactData :=
  (s.sortedRows.drop (take * (page - 1)).toNat).take take.toNat

/-! ## Sample data, from the tests of the package -/

/-- The record of `TestGet`, `TestUpdate` and `TestDelete`. -/
def user1 : ContactData :=
  { ID := 1, Name := "user1", Email := "user1@email.com", Phone := "+628123456789" }

/-- The handle of `TestUpdate` and `TestDelete`. -/
def handle1 : contact := { data := user1, cacheKey := "contact:1" }

/-- The first input of `TestUpdate`. -/
def renameInput : ContactData := { ID := 0, Name := "NewUser1", Email := "", Phone := "" }

/-- The zero value `ContactData{}`. -/
def emptyInput : ContactData := { ID := 0, Name := "", Email := "", Phone := "" }

/-- An empty table and an empty cache. -/
def emptyWorld : World := { store := { rows := [], nextID := 1 }, cache := Cache.empty }

/-- A table holding `user1`, and an empty cache. -/
def world1 : World := { store := { rows := [user1], nextID := 2 }, cache := Cache.empty }

/-- A table holding `user1`, cached under its key. -/
def world1Cached : World :=
  { store := { rows := [user1], nextID := 2 },
    cache := Function.update Cache.empty "contact:1" (cacheData user1) }

/-- A cache entry whose `id` field does not fit in an `int64`. -/
def bigIDMap : FieldMap := [("id", "99999999999999999999"), ("name", "user7")]

/-- An empty table and a cache holding `bigIDMap` under the key of ID 7. -/
def worldBigID : World :=
  { store := { rows := [], nextID := 1 },
    cache := Function.update Cache.empty "contact:7" bigIDMap }

/-- The run that starts from the table holding `user1` and calls `Get(1)` once. -/
def system1 : System := System.get { world := world1, handles := [] } Oracle.allOK 1

/-- The run that starts from an empty table and makes no call. -/
def system0 : System := { world := emptyWorld, handles := [] }

/-- The first input of `TestCreate`. -/
def newUser : ContactData :=
  { ID := 0, Name := "User1", Email := "user1@email.com", Phone := "+628123456789" }

/-- A second and a third record. -/
def user2 : ContactData :=
  { ID := 2, Name := "user2", Email := "user2@email.com", Phone := "+628123456788" }

/-- The third record of `TestList`. -/
def user3 : ContactData :=
  { ID := 3, Name := "user3", Email := "user3@email.com", Phone := "+628123456787" }

/-- A table of three rows that are not stored in the order of their IDs. -/
def world3 : World :=
  { store := { rows := [user2, user3, user1], nextID := 4 }, cache := Cache.empty }

/-- Every round-trip succeeds but the commit. -/
def commitFails : Oracle :=
  { stmtOK := true, commitOK := false, hgetallOK := true, hmsetOK := true, delOK := true }

/-- Every round-trip succeeds but the SQL statement. -/
def queryFails : Oracle :=
  { stmtOK := false, commitOK := true, hgetallOK := true, hmsetOK := true, delOK := true }

/-- An empty table whose cache already holds an entry under the key of the
next ID of the sequence. -/
def worldStale : World :=
  { store := { rows := [], nextID := 1 },
    cache := Function.update Cache.empty "contact:1" (cacheData user1) }

/-- Every round-trip succeeds but the cache `DEL`. -/
def delFails : Oracle :=
  { stmtOK := true, commitOK := true, hgetallOK := true, hmsetOK := true, delOK := false }

/-! ## `strconv`: formatting and parsing are inverse -/

theorem digitVal_digitChar (d : Nat) (h : d < 10) : digitVal (Nat.digitChar d) = d := by
  interval_cases d <;> rfl

theorem isDigit_digitChar (d : Nat) (h : d < 10) : isDigit (Nat.digitChar d) = true := by
  interval_cases d <;> rfl

theorem natDigits_append (fuel n : Nat) (acc : List Char) :
    natDigits fuel n acc = natDigits fuel n [] ++ acc := by
  induction fuel generalizing n acc with
  | zero => simp [natDigits]
  | succ k ih =>
    unfold natDigits
    by_cases h : n / 10 = 0
    · simp [h]
    · simp only [h, if_false]
      rw [ih (n / 10) (Nat.digitChar (n % 10) :: acc), ih (n / 10) [Nat.digitChar (n % 10)]]
      simp

theorem digitsValue_append (xs ys : List Char) (acc : Nat) :
    digitsValue (xs ++ ys) acc = digitsValue ys (digitsValue xs acc) := by
  simp [digitsValue, List.foldl_append]

theorem le_digitsValue (cs : List Char) (acc : Nat) : acc ≤ digitsValue cs acc := by
  induction cs generalizing acc with
  | nil => simp [digitsValue]
  | cons c cs ih =>
    have h := ih (acc * 10 + digitVal c)
    simp only [digitsValue, List.foldl_cons] at h ⊢
    omega

theorem natDigits_value (fuel n : Nat) (h : n < fuel) :
    digitsValue (natDigits fuel n []) 0 = n := by
  induction fuel generalizing n with
  | zero => omega
  | succ k ih =>
    unfold natDigits
    have hd : n % 10 < 10 := Nat.mod_lt _ (by decide)
    by_cases h0 : n / 10 = 0
    · simp only [h0, if_true, digitsValue, List.foldl_cons, List.foldl_nil]
      rw [digitVal_digitChar _ hd]
      omega
    · simp only [h0, if_false]
      rw [natDigits_append, digitsValue_append, ih (n / 10) (by omega)]
      simp only [digitsValue, List.foldl_cons, List.foldl_nil]
      rw [digitVal_digitChar _ hd]
      omega

theorem natDigits_isDigit (fuel n : Nat) :
    ∀ c ∈ natDigits fuel n [], isDigit c = true := by
  induction fuel generalizing n with
  | zero => simp [natDigits]
  | succ k ih =>
    unfold natDigits
    have hd : n % 10 < 10 := Nat.mod_lt _ (by decide)
    by_cases h0 : n / 10 = 0
    · simp only [h0, if_true, List.mem_singleton]
      intro c hc
      rw [hc]
      exact isDigit_digitChar _ hd
    · simp only [h0, if_false]
      rw [natDigits_append]
      intro c hc
      rcases List.mem_append.mp hc with hc | hc
      · exact ih _ c hc
      · rw [List.mem_singleton.mp hc]
        exact isDigit_digitChar _ hd

theorem formatNat_ne_nil (n : Nat) : formatNat n ≠ [] := by
  unfold formatNat natDigits
  by_cases h0 : n / 10 = 0
  · simp [h0]
  · simp only [h0, if_false]
    rw [natDigits_append]
    simp

theorem formatNat_value (n : Nat) : digitsValue (formatNat n) 0 = n :=
  natDigits_value (n + 1) n (by omega)

theorem formatNat_isDigit (n : Nat) : ∀ c ∈ formatNat n, isDigit c = true :=
  natDigits_isDigit (n + 1) n

theorem isDigit_ne_sign (c : Char) (h : isDigit c = true) : c ≠ '-' ∧ c ≠ '+' := by
  constructor <;>
  · intro hc
    rw [hc] at h
    revert h
    decide

theorem decodeIntChars_formatIntChars (i : Int) : decodeIntChars (formatIntChars i) = i := by
  unfold formatIntChars
  by_cases hi : i < 0
  · simp only [hi, if_true, decodeIntChars, formatNat_value]
    omega
  · simp only [hi, if_false]
    cases hf : formatNat i.natAbs with
    | nil => exact absurd hf (formatNat_ne_nil _)
    | cons c cs =>
      have hc : isDigit c = true := formatNat_isDigit i.natAbs c (by simp [hf])
      have hv := formatNat_value i.natAbs
      rw [hf] at hv
      simp only [decodeIntChars, (isDigit_ne_sign c hc).1, if_false, hv]
      omega

theorem formatIntChars_injective (i j : Int) (h : formatIntChars i = formatIntChars j) :
    i = j := by
  rw [← decodeIntChars_formatIntChars i, ← decodeIntChars_formatIntChars j, h]

theorem getCacheKey_injective (i j : Int) (h : getCacheKey i = getCacheKey j) : i = j := by
  unfold getCacheKey formatInt at h
  have h2 := congrArg String.data h
  simp only [String.data_append, List.append_cancel_left_eq] at h2
  exact formatIntChars_injective i j h2

theorem parseUintLoop_digits (cs : List Char) (acc : Nat)
    (hd : ∀ c ∈ cs, isDigit c = true) (hv : digitsValue cs acc ≤ maxUint64) :
    parseUintLoop cs acc = .ok (digitsValue cs acc) := by
  induction cs generalizing acc with
  | nil => simp [parseUintLoop, digitsValue]
  | cons c cs ih =>
    have hc : isDigit c = true := hd c (by simp)
    have hv2 : digitsValue cs (acc * 10 + digitVal c) ≤ maxUint64 := by
      simpa [digitsValue] using hv
    have hle := le_digitsValue cs (acc * 10 + digitVal c)
    have hnot : ¬ (acc * 10 + digitVal c > maxUint64) := by omega
    simp only [parseUintLoop, hc, if_true, hnot, if_false]
    rw [ih _ (fun x hx => hd x (by simp [hx])) hv2]
    simp [digitsValue]

theorem parseUint_formatNat (n : Nat) (h : n ≤ maxUint64) :
    parseUint (formatNat n) = .ok n := by
  cases hf : formatNat n with
  | nil => exact absurd hf (formatNat_ne_nil _)
  | cons c cs =>
    have hv := formatNat_value n
    have hd := formatNat_isDigit n
    rw [hf] at hv hd
    simp only [parseUint]
    rw [parseUintLoop_digits _ _ hd (by omega), hv]

theorem parseIntChars_formatIntChars (i : Int) (h : InInt64 i) :
    parseIntChars (formatIntChars i) = (i, true) := by
  obtain ⟨hlo, hhi⟩ := h
  unfold minInt64 at hlo
  unfold maxInt64 at hhi
  unfold formatIntChars
  by_cases hi : i < 0
  · have hu : parseUint (formatNat i.natAbs) = .ok i.natAbs :=
      parseUint_formatNat _ (by unfold maxUint64; omega)
    simp only [hi, if_true, parseIntChars, parseIntSigned, hu]
    simp only [maxInt64, Bool.not_true, Bool.false_and, Bool.true_and, decide_eq_true_eq]
    rw [if_neg (by decide), if_neg (by decide), if_neg (by omega)]
    have h2 : -(i.natAbs : Int) = i := by omega
    rw [h2]
  · have hu : parseUint (formatNat i.natAbs) = .ok i.natAbs :=
      parseUint_formatNat _ (by unfold maxUint64; omega)
    simp only [hi, if_false]
    cases hf : formatNat i.natAbs with
    | nil => exact absurd hf (formatNat_ne_nil _)
    | cons c cs =>
      have hc : isDigit c = true := formatNat_isDigit i.natAbs c (by simp [hf])
      rw [hf] at hu
      simp only [parseIntChars, (isDigit_ne_sign c hc).1, (isDigit_ne_sign c hc).2, if_false,
        parseIntSigned, hu]
      simp only [maxInt64, Bool.not_false, Bool.false_and, Bool.true_and, decide_eq_true_eq]
      have h1 : ¬ ((i.natAbs : Int) > 9223372036854775807) := by omega
      have h2 : (i.natAbs : Int) = i := by omega
      simp [h1, h2]
      exact hhi

theorem parseInt_formatInt (i : Int) (h : InInt64 i) : parseInt (formatInt i) = (i, true) := by
  unfold parseInt formatInt
  exact parseIntChars_formatIntChars i h

/-! ## The merge of `Update` -/

theorem mergeInput_eq (cur input : ContactData) :
    mergeInput cur input =
      { ID := cur.ID,
        Name := if input.Name ≠ "" then input.Name else cur.Name,
        Email := if input.Email ≠ "" then input.Email else cur.Email,
        Phone := if input.Phone ≠ "" then input.Phone else cur.Phone } := by
  unfold mergeInput
  by_cases h1 : input.Email = "" <;> by_cases h2 : input.Phone = "" <;>
    by_cases h3 : input.Name = "" <;> simp [h1, h2, h3]

/-! ## The Validator -/

/-- C8: `validateContact r` is true exactly when the phone, the e-mail and
the name of `r` each pass their own check; a record in which one field fails
is rejected whatever the other two hold, and the empty record is rejected. -/
theorem validateContact_iff_fields (r : ContactData) :
    (validateContact r = true ↔
      phoneMatch r.Phone = true ∧ emailMatch r.Email = true ∧ nameMatch r.Name = true) ∧
    (phoneMatch r.Phone = false → validateContact r = false) ∧
    (emailMatch r.Email = false → validateContact r = false) ∧
    (nameMatch r.Name = false → validateContact r = false) ∧
    validateContact { r with Name := "", Email := "", Phone := "" } = false := by
  refine ⟨?_, ?_, ?_, ?_, ?_⟩
  · unfold validateContact
    cases phoneMatch r.Phone <;> cases emailMatch r.Email <;> cases nameMatch r.Name <;> simp
  · intro h
    simp [validateContact, h]
  · intro h
    simp [validateContact, h]
  · intro h
    simp [validateContact, h]
  · have h0 : phoneMatch "" = false := by decide
    simp [validateContact, h0]

/-- C7 (the code departs from the claim): the compiled e-mail pattern
`^[a-z1-9.-_]{3,}@[a-z1-9-]+([.][a-z1-9-]+){1,}` rejects addresses of the
stated form (a hyphen in the local part, a `0` in the domain) and accepts
strings outside it (capital letters, anything after a matching start), and
`validateContact` accepts a record with such an e-mail. -/
theorem emailMatch_differs_from_stated_form :
    (emailMatch "a-b@mail.com" = false ∧ specEmailForm "a-b@mail.com" = true) ∧
    (emailMatch "user@mail10.com" = false ∧ specEmailForm "user@mail10.com" = true) ∧
    (emailMatch "ABC@mail.com" = true ∧ specEmailForm "ABC@mail.com" = false) ∧
    (emailMatch "abc@mail.com, <x>" = true ∧ specEmailForm "abc@mail.com, <x>" = false) ∧
    validateContact
      { ID := 0, Name := "User1", Email := "ABC@mail.com, <x>", Phone := "+628123456789" } = true := by
  decide

/-! ## Update: the no-op rule and commit failures -/

/-- C10: when each field of the input is empty or equal to the current
value, `Update` fails with the no-op error, sends nothing to the store or
the cache, and leaves the backends and the record as they were. -/
theorem Update_noop (w : World) (o : Oracle) (c : contact) (input : ContactData)
    (hn : input.Name = "" ∨ input.Name = c.data.Name)
    (he : input.Email = "" ∨ input.Email = c.data.Email)
    (hp : input.Phone = "" ∨ input.Phone = c.data.Phone) :
    (Update w o c input).err = some Error.noDataUpdated ∧
    (Update w o c input).log = [] ∧
    (Update w o c input).world = w ∧
    (Update w o c input).self = c ∧
    Data (Update w o c input).self = Data c := by
  have hm : mergeInput c.data input = c.data := by
    rw [mergeInput_eq]
    have h1 : (if input.Name ≠ "" then input.Name else c.data.Name) = c.data.Name := by
      rcases hn with h | h <;> simp [h]
    have h2 : (if input.Email ≠ "" then input.Email else c.data.Email) = c.data.Email := by
      rcases he with h | h <;> simp [h]
    have h3 : (if input.Phone ≠ "" then input.Phone else c.data.Phone) = c.data.Phone := by
      rcases hp with h | h <;> simp [h]
    rw [h1, h2, h3]
  simp [Update, hm]

/-- C10, at the empty input of `TestUpdate`. -/
theorem Update_noop_witness :
    (Update emptyWorld Oracle.allOK handle1 emptyInput).err = some Error.noDataUpdated :=
  (Update_noop emptyWorld Oracle.allOK handle1 emptyInput
    (Or.inl rfl) (Or.inl rfl) (Or.inl rfl)).1

/-- C6 (the code departs from the claim): when the statement succeeds and
the commit fails, `Update` and `Delete` return a nil error although the
store is unchanged, and `Update` replaces the in-memory record by the merged
values; `Create` returns the commit error. -/
theorem commit_failure_reported_as_success (w : World) (o : Oracle) (c : contact)
    (input : ContactData) (hs : o.stmtOK = true) (hc : o.commitOK = false)
    (hd : mergeInput c.data input ≠ c.data)
    (hv : validateContact (mergeInput c.data input) = true) :
    (Update w o c input).err = none ∧
    (Update w o c input).world.store = w.store ∧
    Data (Update w o c input).self = mergeInput c.data input ∧
    (Delete w o c).err = none ∧
    (Delete w o c).world.store = w.store ∧
    (Create w o (mergeInput c.data input)).err = some Error.commitFailure := by
  simp [Update, Delete, Create, Data, hs, hc, hd, hv]

/-- C6, at the first case of `TestUpdate` with a failing commit. -/
theorem commit_failure_reported_as_success_witness :
    (Update world1 commitFails handle1 renameInput).err = none ∧
    (Update world1 commitFails handle1 renameInput).world.store = world1.store ∧
    Data (Update world1 commitFails handle1 renameInput).self
      = { ID := 1, Name := "NewUser1", Email := "user1@email.com", Phone := "+628123456789" } :=
  ⟨(commit_failure_reported_as_success world1 commitFails handle1 renameInput rfl rfl
      (by decide) (by decide)).1,
    (commit_failure_reported_as_success world1 commitFails handle1 renameInput rfl rfl
      (by decide) (by decide)).2.1,
    (commit_failure_reported_as_success world1 commitFails handle1 renameInput rfl rfl
      (by decide) (by decide)).2.2.1⟩

/-! ## Get: the miss path -/

theorem Get_never_nil_nil (w : World) (o : Oracle) (contactID : Int) :
    ¬ ((Get w o contactID).contact = none ∧ (Get w o contactID).err = none) := by
  by_cases hmap : (if o.hgetallOK = true then w.cache.hgetall (getCacheKey contactID) else [])
      = ([] : FieldMap)
  · by_cases hq : o.stmtOK = true
    · cases hrow : w.store.selectByID contactID with
      | none => simp [Get, hmap, queryRowGet, hq, hrow]
      | some r =>
        have hrid : r.ID = contactID := by
          have := List.find?_some hrow
          simpa using this
        simp [Get, hmap, queryRowGet, hq, hrow, hrid]
    · simp [Get, hmap, queryRowGet, hq]
  · have hlen : (if o.hgetallOK = true then w.cache.hgetall (getCacheKey contactID) else []).length
        ≠ 0 := by
      simpa [List.length_eq_zero] using hmap
    simp [Get, hlen]


/-- C4 (the code departs from the claim): on a cache miss, when the query
itself succeeds and the store has no row for the ID, `Get` returns no record
together with the non-nil error `sql.ErrNoRows`, the same shape as for a
failed query; no call of `Get` returns a nil record with a nil error. -/
theorem Get_no_row_returns_error (w : World) (o : Oracle) (contactID : Int)
    (hmiss : w.cache (getCacheKey contactID) = [])
    (hq : o.stmtOK = true)
    (hrow : w.store.selectByID contactID = none) :
    (Get w o contactID).contact = none ∧
    (Get w o contactID).err = some Error.errNoRows ∧
    (Get w o contactID).err ≠ none ∧
    (∀ (w2 : World) (o2 : Oracle) (id2 : Int),
      ¬ ((Get w2 o2 id2).contact = none ∧ (Get w2 o2 id2).err = none)) := by
  have hmap : (if o.hgetallOK = true then w.cache.hgetall (getCacheKey contactID) else [])
      = ([] : FieldMap) := by
    split
    · exact hmiss
    · rfl
  refine ⟨?_, ?_, ?_, Get_never_nil_nil⟩ <;> simp [Get, hmap, queryRowGet, hq, hrow]

/-- C4, at an empty store and an empty cache. -/
theorem Get_no_row_returns_error_witness :
    (Get emptyWorld Oracle.allOK 2).contact = none ∧
    (Get emptyWorld Oracle.allOK 2).err = some Error.errNoRows :=
  ⟨(Get_no_row_returns_error emptyWorld Oracle.allOK 2 rfl rfl rfl).1,
    (Get_no_row_returns_error emptyWorld Oracle.allOK 2 rfl rfl rfl).2.1⟩

/-! ## `strconv`: what `ParseInt` returns -/

theorem parseUintLoop_eq (cs : List Char) (acc : Nat) (hacc : acc ≤ maxUint64) :
    parseUintLoop cs acc =
      if digitsValue (cs.takeWhile isDigit) acc > maxUint64 then .outOfRange
      else if cs.all isDigit then .ok (digitsValue cs acc) else .badSyntax := by
  induction cs generalizing acc with
  | nil =>
    have h : ¬ (acc > maxUint64) := by omega
    simp [parseUintLoop, digitsValue, h]
  | cons c cs ih =>
    by_cases hc : isDigit c = true
    · by_cases hov : acc * 10 + digitVal c > maxUint64
      · have hle := le_digitsValue (cs.takeWhile isDigit) (acc * 10 + digitVal c)
        have hbig : digitsValue (c :: cs.takeWhile isDigit) acc > maxUint64 := by
          simp only [digitsValue, List.foldl_cons] at hle ⊢
          omega
        simp only [parseUintLoop, hc, if_true, hov, List.takeWhile_cons, hbig]
      · have hle : acc * 10 + digitVal c ≤ maxUint64 := by omega
        simp only [parseUintLoop, hc, if_true, hov, if_false, ih _ hle, List.takeWhile_cons,
          List.all_cons, Bool.true_and]
        simp [digitsValue]
    · have h : ¬ (acc > maxUint64) := by omega
      simp [parseUintLoop, hc, List.takeWhile_cons, digitsValue, h]

theorem parseIntChars_eq (cs : List Char) :
    parseIntChars cs = parseIntSigned (signBody cs).1 (signBody cs).2 := by
  cases cs with
  | nil => simp [parseIntChars, signBody, parseIntSigned, parseUint]
  | cons c t =>
    by_cases h1 : c = '+'
    · simp [parseIntChars, signBody, h1]
    · by_cases h2 : c = '-'
      · simp [parseIntChars, signBody, h2]
      · simp [parseIntChars, signBody, h1, h2]

theorem parseIntChars_of_numeral (cs : List Char) (h : isNumeral cs = true) :
    (parseIntChars cs).1 = clampInt64 (numeralValue cs) := by
  rw [parseIntChars_eq]
  unfold isNumeral at h
  unfold numeralValue
  generalize (signBody cs).1 = neg at *
  generalize (signBody cs).2 = body at *
  simp only [Bool.and_eq_true, Bool.not_eq_true', List.isEmpty_eq_false] at h
  obtain ⟨hne, hall⟩ := h
  have htw : body.takeWhile isDigit = body := by
    rw [List.takeWhile_eq_self_iff]
    simpa using hall
  have hloop := parseUintLoop_eq body 0 (by unfold maxUint64; omega)
  rw [htw, hall] at hloop
  have hpu : parseUint body = parseUintLoop body 0 := by
    cases body with
    | nil => exact absurd rfl hne
    | cons _ _ => rfl
  generalize digitsValue body 0 = v at *
  by_cases hbig : v > maxUint64
  · have hpu2 : parseUint body = .outOfRange := by rw [hpu, hloop, if_pos hbig]
    unfold maxUint64 at hbig
    simp only [parseIntSigned, hpu2]
    cases neg <;> simp only [clampInt64, maxInt64, minInt64] <;> split_ifs <;>
      first | rfl | omega
  · have hpu2 : parseUint body = .ok v := by rw [hpu, hloop, if_neg hbig]; simp
    simp only [parseIntSigned, hpu2]
    cases neg <;>
      simp only [clampInt64, maxInt64, minInt64, Bool.not_false, Bool.not_true, Bool.true_and,
        Bool.false_and, decide_eq_true_eq] <;> split_ifs <;>
      first | rfl | contradiction | omega

theorem parseIntChars_of_not_numeral (cs : List Char) (h : isNumeral cs = false)
    (hlead : digitsValue ((signBody cs).2.takeWhile isDigit) 0 ≤ maxUint64) :
    (parseIntChars cs).1 = 0 := by
  rw [parseIntChars_eq]
  unfold isNumeral at h
  generalize (signBody cs).1 = neg at *
  generalize (signBody cs).2 = body at *
  unfold parseIntSigned
  cases body with
  | nil => simp [parseUint]
  | cons c t =>
    have hall : (c :: t).all isDigit = false := by simpa using h
    have hloop := parseUintLoop_eq (c :: t) 0 (by unfold maxUint64; omega)
    have hnot : ¬ (digitsValue ((c :: t).takeWhile isDigit) 0 > maxUint64) := by omega
    rw [if_neg hnot, hall] at hloop
    have hpu : parseUint (c :: t) = parseUintLoop (c :: t) 0 := rfl
    rw [hpu, hloop]
    simp

/-! ## The cached field map -/

theorem selectByID_ID (s : Store) (id : Int) (r : ContactData)
    (h : s.selectByID id = some r) : r.ID = id := by
  unfold Store.selectByID at h
  have := List.find?_some h
  simpa using this

theorem cacheData_ne_nil (d : ContactData) : cacheData d ≠ [] := by
  simp [cacheData]

theorem fromCache_cacheData (d : ContactData) (h : InInt64 d.ID) :
    fromCache (cacheData d) = d := by
  have hp := parseInt_formatInt d.ID h
  simp [fromCache, cacheData, FieldMap.get, hp]

theorem hmset_cacheData_of_empty (c : Cache) (key : String) (d : ContactData)
    (h : c key = []) : c.hmset key (cacheData d) = Function.update c key (cacheData d) := by
  simp [Cache.hmset, h, cacheData, FieldMap.set]

/-! ## The store: selecting after a write -/

theorem selectByID_insert_of_some (s : Store) (n e p : String) (id : Int) (r : ContactData)
    (h : s.selectByID id = some r) : (s.insert n e p).selectByID id = some r := by
  unfold Store.selectByID at h
  simp [Store.selectByID, Store.insert, List.find?_append, h]

theorem selectByID_insert_new (s : Store) (n e p : String) (hf : s.Fresh) :
    (s.insert n e p).selectByID s.nextID
      = some { ID := s.nextID, Name := n, Email := e, Phone := p } := by
  have hnone : s.rows.find? (fun r => decide (r.ID = s.nextID)) = none := by
    rw [List.find?_eq_none]
    intro x hx
    have := hf x hx
    simp
    omega
  simp [Store.selectByID, Store.insert, List.find?_append, hnone]

theorem selectByID_update_ne (s : Store) (n e p : String) (id id2 : Int) (h : id2 ≠ id) :
    (s.update n e p id).selectByID id2 = s.selectByID id2 := by
  unfold Store.selectByID Store.update
  simp only
  induction s.rows with
  | nil => rfl
  | cons a l ih =>
    by_cases ha : a.ID = id
    · subst ha
      have h2 : ¬ (a.ID = id2) := fun hh => h hh.symm
      simp only [List.map_cons, if_true, List.find?_cons, h2, decide_False]
      exact ih
    · by_cases hb : a.ID = id2
      · subst hb
        simp only [List.map_cons, ha, if_false, List.find?_cons, decide_True]
      · simp only [List.map_cons, ha, if_false, List.find?_cons, hb, decide_False]
        exact ih

theorem selectByID_delete_ne (s : Store) (id id2 : Int) (h : id2 ≠ id) :
    (s.delete id).selectByID id2 = s.selectByID id2 := by
  unfold Store.selectByID Store.delete
  simp only
  induction s.rows with
  | nil => rfl
  | cons a l ih =>
    by_cases ha : a.ID = id
    · subst ha
      have h2 : ¬ (a.ID = id2) := fun hh => h hh.symm
      simp only [List.eraseP_cons, decide_True, cond_true, List.find?_cons, h2, decide_False]
    · by_cases hb : a.ID = id2
      · subst hb
        simp only [List.eraseP_cons, ha, decide_False, cond_false, List.find?_cons,
          decide_True]
      · simp only [List.eraseP_cons, ha, decide_False, cond_false, List.find?_cons, hb]
        exact ih

theorem fresh_insert (s : Store) (n e p : String) (hf : s.Fresh) : (s.insert n e p).Fresh := by
  intro r hr
  simp only [Store.insert, List.mem_append, List.mem_singleton] at hr ⊢
  rcases hr with hr | hr
  · have := hf r hr
    omega
  · rw [hr]
    simp

theorem fresh_update (s : Store) (n e p : String) (id : Int) (hf : s.Fresh) :
    (s.update n e p id).Fresh := by
  intro r hr
  simp only [Store.update, List.mem_map] at hr ⊢
  obtain ⟨a, ha, hra⟩ := hr
  have := hf a ha
  by_cases h : a.ID = id
  · simp [h] at hra
    rw [← hra]
    simpa [h] using this
  · simp [h] at hra
    rw [← hra]
    exact this

theorem fresh_delete (s : Store) (id : Int) (hf : s.Fresh) : (s.delete id).Fresh := by
  intro r hr
  exact hf r (List.mem_of_mem_eraseP hr)

/-! ## The shape of the results -/

theorem Get_cases (w : World) (o : Oracle) (contactID : Int) :
    ((Get w o contactID).contact = none ∧ (Get w o contactID).world = w) ∨
    (∃ r, w.store.selectByID contactID = some r ∧
      (o.hgetallOK = true → w.cache (getCacheKey contactID) = []) ∧
      (Get w o contactID).contact = some { data := r, cacheKey := getCacheKey contactID } ∧
      (Get w o contactID).world = { w with cache :=
        if o.hmsetOK = true then w.cache.hmset (getCacheKey contactID) (cacheData r)
        else w.cache }) ∨
    (o.hgetallOK = true ∧ w.cache (getCacheKey contactID) ≠ [] ∧
      (Get w o contactID).contact = some
        { data := fromCache (w.cache (getCacheKey contactID)),
          cacheKey := getCacheKey contactID } ∧
      (Get w o contactID).world = w) := by
  by_cases hmap : (if o.hgetallOK = true then w.cache.hgetall (getCacheKey contactID) else [])
      = ([] : FieldMap)
  · have hmiss : o.hgetallOK = true → w.cache (getCacheKey contactID) = [] := by
      intro hg
      simpa [hg, Cache.hgetall] using hmap
    by_cases hq : o.stmtOK = true
    · cases hrow : w.store.selectByID contactID with
      | none =>
        left
        simp [Get, hmap, queryRowGet, hq, hrow]
      | some r =>
        right; left
        have hrid : r.ID = contactID := selectByID_ID _ _ _ hrow
        refine ⟨r, rfl, hmiss, ?_, ?_⟩ <;> simp [Get, hmap, queryRowGet, hq, hrow, hrid]
    · left
      simp [Get, hmap, queryRowGet, hq]
  · right; right
    have hg : o.hgetallOK = true := by
      by_contra hg
      simp [hg] at hmap
    have hne : w.cache (getCacheKey contactID) ≠ [] := by
      simpa [hg, Cache.hgetall] using hmap
    have hlen : (w.cache (getCacheKey contactID)).length ≠ 0 := by
      simpa [List.length_eq_zero] using hne
    refine ⟨hg, hne, ?_, ?_⟩ <;> simp [Get, hg, Cache.hgetall, hlen]

theorem Create_cases (w : World) (o : Oracle) (input : ContactData) :
    ((Create w o input).contact = none ∧ (Create w o input).world = w) ∨
    ((Create w o input).contact = some
        { data := { input with ID := w.store.nextID },
          cacheKey := getCacheKey w.store.nextID } ∧
      (Create w o input).world =
        { w with store := w.store.insert input.Name input.Email input.Phone }) := by
  by_cases hv : validateContact input = true
  · by_cases hq : o.stmtOK = true
    · by_cases hc : o.commitOK = true
      · right
        simp [Create, hv, hq, hc]
      · left
        simp [Create, hv, hq, hc]
    · left
      simp [Create, hv, hq]
  · left
    simp [Create, hv]

theorem Update_cases (w : World) (o : Oracle) (c : contact) (input : ContactData) :
    ((Update w o c input).self = c ∧ (Update w o c input).world = w) ∨
    ((Update w o c input).self = { c with data := mergeInput c.data input } ∧
      (Update w o c input).world =
        { store := if o.commitOK = true then
              w.store.update (mergeInput c.data input).Name (mergeInput c.data input).Email
                (mergeInput c.data input).Phone c.data.ID
            else w.store,
          cache := if o.delOK = true then w.cache.del c.cacheKey else w.cache }) := by
  have hid : (mergeInput c.data input).ID = c.data.ID := by rw [mergeInput_eq]
  by_cases hd : mergeInput c.data input = c.data
  · left
    simp [Update, hd]
  · by_cases hv : validateContact (mergeInput c.data input) = true
    · by_cases hq : o.stmtOK = true
      · right
        simp [Update, hd, hv, hq, hid]
      · left
        simp [Update, hd, hv, hq]
    · left
      simp [Update, hd, hv]

theorem Delete_cases (w : World) (o : Oracle) (c : contact) :
    (Delete w o c).self = c ∧
    ((Delete w o c).world = w ∨
      (Delete w o c).world =
        { store := if o.commitOK = true then w.store.delete c.data.ID else w.store,
          cache := if o.delOK = true then w.cache.del c.cacheKey else w.cache }) := by
  by_cases hq : o.stmtOK = true
  · simp [Delete, hq]
  · simp [Delete, hq]

theorem cache_hit_result (w : World) (o : Oracle) (contactID : Int)
    (hg : o.hgetallOK = true) (hne : w.cache (getCacheKey contactID) ≠ []) :
    (Get w o contactID).contact =
      some { data := fromCache (w.cache (getCacheKey contactID)),
             cacheKey := getCacheKey contactID } ∧
    (Get w o contactID).err = none ∧
    ∀ e ∈ (Get w o contactID).log, e.isStmt = false := by
  have hlen : (w.cache (getCacheKey contactID)).length ≠ 0 := by
    simpa [List.length_eq_zero] using hne
  refine ⟨?_, ?_, ?_⟩ <;> simp [Get, hg, Cache.hgetall, hlen, Event.isStmt]

/-! ## Cache entries mirror the rows -/

theorem agrees_get (w : World) (o : Oracle) (contactID : Int) (hI : CacheAgrees w)
    (hc : o.cacheOK) : CacheAgrees (Get w o contactID).world := by
  obtain ⟨hg, hm, _⟩ := hc
  rcases Get_cases w o contactID with ⟨_, hw⟩ | ⟨r, hrow, hmiss, _, hw⟩ | ⟨_, _, _, hw⟩
  · rw [hw]; exact hI
  · rw [hw, if_pos hm, hmset_cacheData_of_empty _ _ _ (hmiss hg)]
    intro id hne
    by_cases hk : getCacheKey id = getCacheKey contactID
    · have hid : id = contactID := getCacheKey_injective _ _ hk
      subst hid
      exact ⟨r, hrow, by simp⟩
    · simp only [Function.update_noteq hk] at hne ⊢
      exact hI id hne
  · rw [hw]; exact hI

theorem keyed_get (w : World) (o : Oracle) (contactID : Int) (hI : CacheAgrees w)
    (hid : InInt64 contactID) (c : contact) (hc : (Get w o contactID).contact = some c) :
    HandleKeyed c := by
  rcases Get_cases w o contactID with ⟨hn, _⟩ | ⟨r, hrow, _, hcon, _⟩ | ⟨_, hne, hcon, _⟩
  · rw [hn] at hc
    exact absurd hc (by simp)
  · rw [hcon] at hc
    have hrid : r.ID = contactID := selectByID_ID _ _ _ hrow
    have hc2 := Option.some.inj hc
    rw [← hc2]
    simp [HandleKeyed, hrid]
  · rw [hcon] at hc
    obtain ⟨r, hrow, hm⟩ := hI contactID hne
    have hrid : r.ID = contactID := selectByID_ID _ _ _ hrow
    have hdec : fromCache (cacheData r) = r := fromCache_cacheData r (by rw [hrid]; exact hid)
    have hc2 := Option.some.inj hc
    rw [← hc2, hm, hdec]
    simp [HandleKeyed, hrid]

theorem agrees_create (w : World) (o : Oracle) (input : ContactData) (hI : CacheAgrees w) :
    CacheAgrees (Create w o input).world := by
  rcases Create_cases w o input with ⟨_, hw⟩ | ⟨_, hw⟩
  · rw [hw]; exact hI
  · rw [hw]
    intro id hne
    obtain ⟨r, hrow, hm⟩ := hI id hne
    exact ⟨r, selectByID_insert_of_some _ _ _ _ _ _ hrow, hm⟩

theorem keyed_create (w : World) (o : Oracle) (input : ContactData) (c : contact)
    (hc : (Create w o input).contact = some c) : HandleKeyed c := by
  rcases Create_cases w o input with ⟨hn, _⟩ | ⟨hcon, _⟩
  · rw [hn] at hc
    exact absurd hc (by simp)
  · rw [hcon] at hc
    have hc2 := Option.some.inj hc
    rw [← hc2]
    simp [HandleKeyed]

theorem agrees_after_del (w : World) (key : String) (id0 : Int) (st : Store)
    (hkey : key = getCacheKey id0) (hI : CacheAgrees w)
    (hst : ∀ id, id ≠ id0 → st.selectByID id = w.store.selectByID id) :
    CacheAgrees { store := st, cache := w.cache.del key } := by
  intro id hne
  by_cases hk : getCacheKey id = key
  · exfalso
    apply hne
    show Function.update w.cache key [] (getCacheKey id) = []
    rw [hk, Function.update_same]
  · have hid : id ≠ id0 := by
      intro h
      apply hk
      rw [h, hkey]
    simp only [Cache.del, Function.update_noteq hk] at hne ⊢
    obtain ⟨r, hrow, hm⟩ := hI id hne
    exact ⟨r, by rw [hst id hid]; exact hrow, hm⟩

theorem agrees_update (w : World) (o : Oracle) (c : contact) (input : ContactData)
    (hI : CacheAgrees w) (hk : HandleKeyed c) (hc : o.cacheOK) :
    CacheAgrees (Update w o c input).world := by
  obtain ⟨_, _, hd⟩ := hc
  rcases Update_cases w o c input with ⟨_, hw⟩ | ⟨_, hw⟩
  · rw [hw]; exact hI
  · rw [hw, if_pos hd]
    apply agrees_after_del w c.cacheKey c.data.ID _ hk hI
    intro id hid
    by_cases hco : o.commitOK = true
    · rw [if_pos hco]
      exact selectByID_update_ne _ _ _ _ _ _ hid
    · rw [if_neg hco]

theorem keyed_update (w : World) (o : Oracle) (c : contact) (input : ContactData)
    (hk : HandleKeyed c) : HandleKeyed (Update w o c input).self := by
  rcases Update_cases w o c input with ⟨hs, _⟩ | ⟨hs, _⟩
  · rw [hs]; exact hk
  · rw [hs]
    have hid : (mergeInput c.data input).ID = c.data.ID := by rw [mergeInput_eq]
    simpa [HandleKeyed, hid] using hk

theorem agrees_delete (w : World) (o : Oracle) (c : contact)
    (hI : CacheAgrees w) (hk : HandleKeyed c) (hc : o.cacheOK) :
    CacheAgrees (Delete w o c).world := by
  obtain ⟨_, _, hd⟩ := hc
  rcases (Delete_cases w o c).2 with hw | hw
  · rw [hw]; exact hI
  · rw [hw, if_pos hd]
    apply agrees_after_del w c.cacheKey c.data.ID _ hk hI
    intro id hid
    by_cases hco : o.commitOK = true
    · rw [if_pos hco]
      exact selectByID_delete_ne _ _ _ hid
    · rw [if_neg hco]

theorem coherent_of_reachable (s : System) (hs : Reachable Oracle.cacheOK anyStore s) :
    Coherent s := by
  induction hs with
  | init store hf =>
    constructor
    · intro id hne
      exact absurd rfl hne
    · intro h hh
      simp at hh
  | get s o contactID _ ho hid ih =>
    obtain ⟨hI, hH⟩ := ih
    constructor
    · exact agrees_get _ _ _ hI ho
    · intro h hh
      simp only [System.get, List.mem_append, Option.mem_toList, Option.mem_def] at hh
      rcases hh with hh | hh
      · exact keyed_get _ _ _ hI hid h hh
      · exact hH h hh
  | create s o input _ ho ih =>
    obtain ⟨hI, hH⟩ := ih
    constructor
    · exact agrees_create _ _ _ hI
    · intro h hh
      simp only [System.create, List.mem_append, Option.mem_toList, Option.mem_def] at hh
      rcases hh with hh | hh
      · exact keyed_create _ _ _ h hh
      · exact hH h hh
  | update s o i input _ ho ih =>
    obtain ⟨hI, hH⟩ := ih
    unfold System.update
    cases hc : s.handles[i]? with
    | none => exact ⟨hI, hH⟩
    | some c =>
      have hk : HandleKeyed c := hH c (List.getElem?_mem hc)
      constructor
      · exact agrees_update _ _ _ _ hI hk ho
      · intro h hh
        rcases List.mem_or_eq_of_mem_set hh with hh | hh
        · exact hH h hh
        · rw [hh]
          exact keyed_update _ _ _ _ hk
  | delete s o i _ ho ih =>
    obtain ⟨hI, hH⟩ := ih
    unfold System.delete
    cases hc : s.handles[i]? with
    | none => exact ⟨hI, hH⟩
    | some c =>
      have hk : HandleKeyed c := hH c (List.getElem?_mem hc)
      constructor
      · exact agrees_delete _ _ _ hI hk ho
      · intro h hh
        rcases List.mem_or_eq_of_mem_set hh with hh | hh
        · exact hH h hh
        · rw [hh, (Delete_cases _ _ _).1]
          exact hk

/-- C1: in every state reached from an empty cache and any table by calls of `Get`,
`Create`, `Update` and `Delete` (the last two on handles returned earlier,
store statements and commits being free to fail, cache commands succeeding),
a cache entry under the key `contact:<id>` is exactly the field map of the
row stored under that ID, and a `Get` served from the cache returns that row
without a statement to the store. -/
theorem cache_entry_mirrors_row (s : System) (hs : Reachable Oracle.cacheOK anyStore s)
    (id : Int)
    (hne : s.world.cache (getCacheKey id) ≠ []) :
    ∃ r, s.world.store.selectByID id = some r ∧ r.ID = id ∧
      s.world.cache (getCacheKey id) = cacheData r ∧
      (InInt64 id → ∀ o : Oracle, o.hgetallOK = true →
        (Get s.world o id).contact = some { data := r, cacheKey := getCacheKey id } ∧
        (Get s.world o id).err = none ∧
        ∀ e ∈ (Get s.world o id).log, e.isStmt = false) := by
  obtain ⟨r, hrow, hm⟩ := (coherent_of_reachable s hs).1 id hne
  have hrid : r.ID = id := selectByID_ID _ _ _ hrow
  refine ⟨r, hrow, hrid, hm, ?_⟩
  intro hid o hg
  have hdec : fromCache (cacheData r) = r := fromCache_cacheData r (by rw [hrid]; exact hid)
  have hhit := cache_hit_result s.world o id hg hne
  rw [hm, hdec] at hhit
  exact hhit

/-- C1, at the run that calls `Get(1)` once over a table holding `user1`. -/
theorem cache_entry_mirrors_row_witness :
    ∃ r, system1.world.store.selectByID 1 = some r ∧ r.ID = 1 ∧
      system1.world.cache (getCacheKey 1) = cacheData r ∧
      (InInt64 1 → ∀ o : Oracle, o.hgetallOK = true →
        (Get system1.world o 1).contact = some { data := r, cacheKey := getCacheKey 1 } ∧
        (Get system1.world o 1).err = none ∧
        ∀ e ∈ (Get system1.world o 1).log, e.isStmt = false) :=
  cache_entry_mirrors_row system1
    (Reachable.get _ Oracle.allOK 1 (Reachable.init world1.store trivial)
      ⟨rfl, rfl, rfl⟩ (by decide))
    1 (by decide)

/-! ## The sequence stays ahead of the stored and the cached IDs -/

theorem ahead_get (w : World) (o : Oracle) (contactID : Int) (hA : SeqAhead w) :
    SeqAhead (Get w o contactID).world := by
  rcases Get_cases w o contactID with ⟨_, hw⟩ | ⟨r, hrow, _, _, hw⟩ | ⟨_, _, _, hw⟩
  · rw [hw]; exact hA
  · rw [hw]
    refine ⟨hA.1, ?_⟩
    intro id hne
    by_cases hm : o.hmsetOK = true
    · simp only [if_pos hm, Cache.hmset] at hne
      by_cases hk : getCacheKey id = getCacheKey contactID
      · have hid : id = contactID := getCacheKey_injective _ _ hk
        have hmem : r ∈ w.store.rows := List.mem_of_find?_eq_some hrow
        have hrid : r.ID = contactID := selectByID_ID _ _ _ hrow
        have := hA.1 r hmem
        show id < w.store.nextID
        omega
      · rw [Function.update_noteq hk] at hne
        exact hA.2 id hne
    · simp only [if_neg hm] at hne
      exact hA.2 id hne
  · rw [hw]; exact hA

theorem ahead_create (w : World) (o : Oracle) (input : ContactData) (hA : SeqAhead w) :
    SeqAhead (Create w o input).world := by
  rcases Create_cases w o input with ⟨_, hw⟩ | ⟨_, hw⟩
  · rw [hw]; exact hA
  · rw [hw]
    refine ⟨fresh_insert _ _ _ _ hA.1, ?_⟩
    intro id hne
    have := hA.2 id hne
    show id < w.store.nextID + 1
    omega

theorem ahead_after_del (w : World) (key : String) (b : Bool) (st : Store)
    (hA : SeqAhead w) (hf : st.Fresh) (hn : st.nextID = w.store.nextID) :
    SeqAhead { store := st, cache := if b = true then w.cache.del key else w.cache } := by
  refine ⟨hf, ?_⟩
  intro id hne
  show id < st.nextID
  rw [hn]
  apply hA.2 id
  intro h0
  apply hne
  show (if b = true then w.cache.del key else w.cache) (getCacheKey id) = []
  by_cases hb : b = true
  · rw [if_pos hb]
    by_cases hk : getCacheKey id = key
    · show Function.update w.cache key [] (getCacheKey id) = []
      rw [hk, Function.update_same]
    · show Function.update w.cache key [] (getCacheKey id) = []
      rw [Function.update_noteq hk]
      exact h0
  · rw [if_neg hb]
    exact h0

theorem ahead_update (w : World) (o : Oracle) (c : contact) (input : ContactData)
    (hA : SeqAhead w) : SeqAhead (Update w o c input).world := by
  rcases Update_cases w o c input with ⟨_, hw⟩ | ⟨_, hw⟩
  · rw [hw]; exact hA
  · rw [hw]
    apply ahead_after_del w c.cacheKey o.delOK _ hA
    · by_cases hco : o.commitOK = true
      · rw [if_pos hco]
        exact fresh_update _ _ _ _ _ hA.1
      · rw [if_neg hco]
        exact hA.1
    · by_cases hco : o.commitOK = true
      · rw [if_pos hco]; rfl
      · rw [if_neg hco]

theorem ahead_delete (w : World) (o : Oracle) (c : contact) (hA : SeqAhead w) :
    SeqAhead (Delete w o c).world := by
  rcases (Delete_cases w o c).2 with hw | hw
  · rw [hw]; exact hA
  · rw [hw]
    apply ahead_after_del w c.cacheKey o.delOK _ hA
    · by_cases hco : o.commitOK = true
      · rw [if_pos hco]
        exact fresh_delete _ _ hA.1
      · rw [if_neg hco]
        exact hA.1
    · by_cases hco : o.commitOK = true
      · rw [if_pos hco]; rfl
      · rw [if_neg hco]

theorem ahead_of_reachable (s : System) (hs : Reachable anyOracle Store.Fresh s) :
    SeqAhead s.world := by
  induction hs with
  | init store hf =>
    refine ⟨hf, ?_⟩
    intro id hne
    exact absurd rfl hne
  | get s o contactID _ _ _ ih => exact ahead_get _ _ _ ih
  | create s o input _ _ ih => exact ahead_create _ _ _ ih
  | update s o i input _ _ ih =>
    unfold System.update
    cases hc : s.handles[i]? with
    | none => exact ih
    | some c => exact ahead_update _ _ _ _ ih
  | delete s o i _ _ ih =>
    unfold System.delete
    cases hc : s.handles[i]? with
    | none => exact ih
    | some c => exact ahead_delete _ _ _ ih

/-! ## Create, then Get -/

/-- C3 as stated fails for the following `Get`. When its query fails,
`Get` returns the error and no record. And when the cache already holds an
entry under the key of the ID the store generates, `Get` is served from that
entry and returns another record, every round-trip succeeding. -/
theorem Get_after_Create_may_differ :
    validateContact newUser = true ∧
    (Create emptyWorld Oracle.allOK newUser).err = none ∧
    (Get (Create emptyWorld Oracle.allOK newUser).world queryFails 1).contact = none ∧
    (Get (Create emptyWorld Oracle.allOK newUser).world queryFails 1).err
      = some Error.sqlFailure ∧
    (Create worldStale Oracle.allOK newUser).err = none ∧
    (Create worldStale Oracle.allOK newUser).contact = some
      { data := { ID := 1, Name := "User1", Email := "user1@email.com",
                  Phone := "+628123456789" },
        cacheKey := "contact:1" } ∧
    (Get (Create worldStale Oracle.allOK newUser).world Oracle.allOK 1).contact = some
      { data := { ID := 1, Name := "user1", Email := "user1@email.com",
                  Phone := "+628123456789" },
        cacheKey := "contact:1" } ∧
    (Get (Create worldStale Oracle.allOK newUser).world Oracle.allOK 1).contact
      ≠ (Create worldStale Oracle.allOK newUser).contact := by
  decide

/-- C3, amended: when the input passes the Validator and the insert and
the commit succeed, `Create` returns a record with the name, e-mail and phone
of the input, the ID generated by the store (whatever ID the input carried)
and the cache key of that ID, and the cache is not written. In a state
reached from an empty cache and a table whose ID sequence is ahead of its
rows, whatever round-trips failed, the row is stored under that ID, and a
following `Get` of that ID returns a handle equal to the one created when its
query succeeds, and the error with no record when its query fails. -/
theorem Create_then_Get (s : System) (x : ContactData) (o : Oracle)
    (hv : validateContact x = true)
    (hq : o.stmtOK = true) (hc : o.commitOK = true) :
    (Create s.world o x).err = none ∧
    (Create s.world o x).contact = some
      { data := { ID := s.world.store.nextID, Name := x.Name, Email := x.Email,
                  Phone := x.Phone },
        cacheKey := getCacheKey s.world.store.nextID } ∧
    (Create s.world o x).world.cache = s.world.cache ∧
    (∀ e ∈ (Create s.world o x).log, e.isCacheWrite = false) ∧
    (Reachable anyOracle Store.Fresh s →
      (Create s.world o x).world.store.selectByID s.world.store.nextID = some
        { ID := s.world.store.nextID, Name := x.Name, Email := x.Email, Phone := x.Phone } ∧
      ∀ o2 : Oracle,
        (o2.stmtOK = true →
          (Get (Create s.world o x).world o2 s.world.store.nextID).contact
            = (Create s.world o x).contact ∧
          (Get (Create s.world o x).world o2 s.world.store.nextID).err = none) ∧
        (o2.stmtOK = false →
          (Get (Create s.world o x).world o2 s.world.store.nextID).contact = none ∧
          (Get (Create s.world o x).world o2 s.world.store.nextID).err
            = some Error.sqlFailure)) := by
  have hcr : Create s.world o x =
      { contact := some { data := { x with ID := s.world.store.nextID },
                          cacheKey := getCacheKey s.world.store.nextID },
        err := none,
        world := { s.world with store := s.world.store.insert x.Name x.Email x.Phone },
        log := [.begin, .insert x.Name x.Email x.Phone, .commit, .rollback] } := by
    simp [Create, hv, hq, hc]
  rw [hcr]
  refine ⟨rfl, rfl, rfl, ?_, ?_⟩
  · simp [Event.isCacheWrite]
  · intro hs
    have hA := ahead_of_reachable s hs
    have hrow := selectByID_insert_new s.world.store x.Name x.Email x.Phone hA.1
    have hempty : s.world.cache (getCacheKey s.world.store.nextID) = [] := by
      by_contra hne
      have := hA.2 _ hne
      omega
    refine ⟨hrow, ?_⟩
    intro o2
    have hmap : (if o2.hgetallOK = true then
        s.world.cache.hgetall (getCacheKey s.world.store.nextID) else [])
          = ([] : FieldMap) := by
      split
      · exact hempty
      · rfl
    constructor
    · intro hq2
      constructor <;> simp [Get, hmap, queryRowGet, hq2, hrow]
    · intro hq2
      constructor <;> simp [Get, hmap, queryRowGet, hq2]

/-- C3 amended, at the first case of `TestCreate` over an empty table. -/
theorem Create_then_Get_witness :
    (Create system0.world Oracle.allOK newUser).contact = some
      { data := { ID := 1, Name := "User1", Email := "user1@email.com",
                  Phone := "+628123456789" },
        cacheKey := "contact:1" } ∧
    (Get (Create system0.world Oracle.allOK newUser).world Oracle.allOK 1).contact
      = (Create system0.world Oracle.allOK newUser).contact :=
  ⟨(Create_then_Get system0 newUser Oracle.allOK (by decide) rfl rfl).2.1,
    ((((Create_then_Get system0 newUser Oracle.allOK (by decide) rfl rfl).2.2.2.2
      (Reachable.init emptyWorld.store (by decide))).2 Oracle.allOK).1 rfl).1⟩

/-! ## Get: read-through -/

/-- C2: for an ID with a row and no cache entry, with cache commands that
succeed and no write in between, the first `Get` returns the row and caches
its field map, and a second `Get` returns the same handle (same ID, name,
e-mail, phone and cache key) without sending any statement to the store:
the cached map decodes back to the record read. -/
theorem Get_twice_same_record (w : World) (o1 o2 : Oracle) (contactID : Int)
    (r : ContactData) (hid : InInt64 contactID)
    (hrow : w.store.selectByID contactID = some r)
    (hmiss : w.cache (getCacheKey contactID) = [])
    (hc1 : o1.cacheOK) (hc2 : o2.cacheOK) (hq : o1.stmtOK = true) :
    (Get w o1 contactID).contact = some { data := r, cacheKey := getCacheKey contactID } ∧
    (Get w o1 contactID).err = none ∧
    (Get w o1 contactID).world.store = w.store ∧
    (Get w o1 contactID).world.cache (getCacheKey contactID) = cacheData r ∧
    fromCache (cacheData r) = r ∧
    (Get (Get w o1 contactID).world o2 contactID).contact = (Get w o1 contactID).contact ∧
    (Get (Get w o1 contactID).world o2 contactID).err = none ∧
    (∀ e ∈ (Get (Get w o1 contactID).world o2 contactID).log, e.isStmt = false) := by
  obtain ⟨hg1, hm1, _⟩ := hc1
  obtain ⟨hg2, _, _⟩ := hc2
  have hrid : r.ID = contactID := selectByID_ID _ _ _ hrow
  have hdec : fromCache (cacheData r) = r := fromCache_cacheData r (by rw [hrid]; exact hid)
  have hfirst : Get w o1 contactID =
      { contact := some { data := r, cacheKey := getCacheKey contactID }, err := none,
        world := { w with cache := Function.update w.cache (getCacheKey contactID) (cacheData r) },
        log := [.hgetall (getCacheKey contactID), .selectByID contactID,
          .hmset (getCacheKey contactID) (cacheData r)] } := by
    simp [Get, hg1, hm1, Cache.hgetall, hmiss, queryRowGet, hq, hrow, hrid,
      hmset_cacheData_of_empty _ _ _ hmiss]
  rw [hfirst]
  have hlen : (cacheData r).length ≠ 0 := by simp [cacheData]
  refine ⟨rfl, rfl, rfl, by simp, hdec, ?_, ?_, ?_⟩ <;>
    simp [Get, hg2, Cache.hgetall, hlen, hdec, Event.isStmt]

/-- C2, at the first two cases of `TestGet`. -/
theorem Get_twice_same_record_witness :
    (Get world1 Oracle.allOK 1).contact = some handle1 ∧
    (Get (Get world1 Oracle.allOK 1).world Oracle.allOK 1).contact
      = (Get world1 Oracle.allOK 1).contact :=
  ⟨(Get_twice_same_record world1 Oracle.allOK Oracle.allOK 1 user1 (by decide) rfl rfl
      ⟨rfl, rfl, rfl⟩ ⟨rfl, rfl, rfl⟩ rfl).1,
    (Get_twice_same_record world1 Oracle.allOK Oracle.allOK 1 user1 (by decide) rfl rfl
      ⟨rfl, rfl, rfl⟩ ⟨rfl, rfl, rfl⟩ rfl).2.2.2.2.2.1⟩

/-- C5 as stated fails on an `id` field that is a decimal integer too large
for an `int64`: the record served from the cache carries the largest `int64`,
which is neither the integer the field denotes nor 0. -/
theorem Get_cached_id_out_of_range :
    (Get worldBigID Oracle.allOK 7).contact =
      some { data := { ID := 9223372036854775807, Name := "user7", Email := "", Phone := "" },
             cacheKey := "contact:7" } ∧
    specCachedID (worldBigID.cache (getCacheKey 7)) = 99999999999999999999 ∧
    (Get worldBigID Oracle.allOK 7).contact.map (fun c => c.data.ID)
      ≠ some (specCachedID (worldBigID.cache (getCacheKey 7))) := by
  decide

/-- C5, amended: whenever the cache returns a non-empty map under the key
of the requested ID, `Get` returns a record with a nil error, sends no
statement to the store and leaves the backends as they are. The name, e-mail
and phone are the cached values, or the empty string for an absent field.
The ID is 0 when the `id` field is absent; when the field is a decimal
integer (an optional sign and one or more digits) the ID is its value,
replaced by the nearest `int64` when out of range; when the field is
anything else the ID is 0, provided its leading digits stay within 64 bits. -/
theorem Get_served_from_cache (w : World) (o : Oracle) (contactID : Int)
    (hg : o.hgetallOK = true) (hne : w.cache (getCacheKey contactID) ≠ []) :
    (Get w o contactID).contact =
      some { data := fromCache (w.cache (getCacheKey contactID)),
             cacheKey := getCacheKey contactID } ∧
    (Get w o contactID).err = none ∧
    (Get w o contactID).world = w ∧
    (∀ e ∈ (Get w o contactID).log, e.isStmt = false) ∧
    (fromCache (w.cache (getCacheKey contactID))).Name
      = ((w.cache (getCacheKey contactID)).get "name").getD "" ∧
    (fromCache (w.cache (getCacheKey contactID))).Email
      = ((w.cache (getCacheKey contactID)).get "email").getD "" ∧
    (fromCache (w.cache (getCacheKey contactID))).Phone
      = ((w.cache (getCacheKey contactID)).get "phone").getD "" ∧
    ((w.cache (getCacheKey contactID)).get "id" = none →
      (fromCache (w.cache (getCacheKey contactID))).ID = 0) ∧
    (∀ v, (w.cache (getCacheKey contactID)).get "id" = some v →
      (isNumeral v.data = true →
        (fromCache (w.cache (getCacheKey contactID))).ID = clampInt64 (numeralValue v.data)) ∧
      (isNumeral v.data = false →
        digitsValue ((signBody v.data).2.takeWhile isDigit) 0 ≤ maxUint64 →
        (fromCache (w.cache (getCacheKey contactID))).ID = 0)) := by
  have hlen : (w.cache (getCacheKey contactID)).length ≠ 0 := by
    simpa [List.length_eq_zero] using hne
  refine ⟨?_, ?_, ?_, ?_, rfl, rfl, rfl, ?_, ?_⟩
  · simp [Get, hg, Cache.hgetall, hlen]
  · simp [Get, hg, Cache.hgetall, hlen]
  · simp [Get, hg, Cache.hgetall, hlen]
  · simp [Get, hg, Cache.hgetall, hlen, Event.isStmt]
  · intro h
    simp [fromCache, h]
  · intro v h
    constructor
    · intro hnum
      simp only [fromCache, h, parseInt]
      exact parseIntChars_of_numeral v.data hnum
    · intro hnum hlead
      simp only [fromCache, h, parseInt]
      exact parseIntChars_of_not_numeral v.data hnum hlead

/-- C5 amended, at a partial cache entry that holds a name only. -/
theorem Get_served_from_cache_witness :
    (Get { store := { rows := [], nextID := 1 },
           cache := Function.update Cache.empty "contact:7" [("name", "user7")] }
      Oracle.allOK 7).contact =
      some { data := { ID := 0, Name := "user7", Email := "", Phone := "" },
             cacheKey := "contact:7" } :=
  (Get_served_from_cache
    { store := { rows := [], nextID := 1 },
      cache := Function.update Cache.empty "contact:7" [("name", "user7")] }
    Oracle.allOK 7 rfl (by decide)).1

/-! ## Update: the write path -/

/-- C9 as stated fails when the cache command does not go through: the
update is stored and reported as a success, and the entry under the cache
key of the record is still there, holding the old name. -/
theorem Update_stale_entry_when_del_fails :
    mergeInput handle1.data renameInput ≠ handle1.data ∧
    validateContact (mergeInput handle1.data renameInput) = true ∧
    delFails.stmtOK = true ∧
    (Update world1Cached delFails handle1 renameInput).err = none ∧
    (Update world1Cached delFails handle1 renameInput).world.store.selectByID 1
      = some { user1 with Name := "NewUser1" } ∧
    (Update world1Cached delFails handle1 renameInput).world.cache handle1.cacheKey
      = cacheData user1 ∧
    (Update world1Cached delFails handle1 renameInput).world.cache handle1.cacheKey ≠ [] := by
  decide

/-- C9, amended: when the merged record differs from the current one and
passes the Validator and the update statement succeeds, `Update` sends the
store exactly one statement, the update keyed by the ID of the record and
carrying the merged name, e-mail and phone (each the input field if
non-empty, the current field otherwise); `Data()` then returns the merged
record with the ID unchanged; a `DEL` of the cache key of the record is sent,
and when that command succeeds the entry is gone, the other keys being
untouched, while a failed `DEL` leaves the whole cache as it was. An input
that sets only the e-mail changes only the e-mail. -/
theorem Update_writes_merged_and_invalidates (w : World) (o : Oracle) (c : contact)
    (input : ContactData)
    (hd : mergeInput c.data input ≠ c.data)
    (hv : validateContact (mergeInput c.data input) = true)
    (hs : o.stmtOK = true) :
    (Update w o c input).err = none ∧
    (Update w o c input).log.filter Event.isStmt =
      [Event.update (if input.Name ≠ "" then input.Name else c.data.Name)
        (if input.Email ≠ "" then input.Email else c.data.Email)
        (if input.Phone ≠ "" then input.Phone else c.data.Phone) c.data.ID] ∧
    Data (Update w o c input).self =
      { ID := c.data.ID,
        Name := if input.Name ≠ "" then input.Name else c.data.Name,
        Email := if input.Email ≠ "" then input.Email else c.data.Email,
        Phone := if input.Phone ≠ "" then input.Phone else c.data.Phone } ∧
    (Update w o c input).self.cacheKey = c.cacheKey ∧
    (o.commitOK = true → (Update w o c input).world.store =
      w.store.update (if input.Name ≠ "" then input.Name else c.data.Name)
        (if input.Email ≠ "" then input.Email else c.data.Email)
        (if input.Phone ≠ "" then input.Phone else c.data.Phone) c.data.ID) ∧
    (Update w o c input).log.filter Event.isCacheWrite = [Event.del c.cacheKey] ∧
    (o.delOK = true → (Update w o c input).world.cache c.cacheKey = [] ∧
      ∀ k, k ≠ c.cacheKey → (Update w o c input).world.cache k = w.cache k) ∧
    (o.delOK = false → (Update w o c input).world.cache = w.cache) ∧
    (input.Name = "" → input.Phone = "" →
      Data (Update w o c input).self = { c.data with Email := input.Email }) := by
  have hm := mergeInput_eq c.data input
  have hupd : Update w o c input =
      { err := none, self := { c with data := mergeInput c.data input },
        world := {
          store := if o.commitOK = true then
              w.store.update (mergeInput c.data input).Name (mergeInput c.data input).Email
                (mergeInput c.data input).Phone (mergeInput c.data input).ID
            else w.store,
          cache := if o.delOK = true then w.cache.del c.cacheKey else w.cache },
        log := [.begin, .update (mergeInput c.data input).Name (mergeInput c.data input).Email
          (mergeInput c.data input).Phone (mergeInput c.data input).ID, .commit,
          .del c.cacheKey, .rollback] } := by
    simp [Update, hd, hv, hs]
  rw [hupd]
  refine ⟨rfl, ?_, ?_, rfl, ?_, ?_, ?_, ?_, ?_⟩
  · simp [List.filter, Event.isStmt, hm]
  · simp [Data, hm]
  · intro hc
    simp [hc, hm]
  · simp [List.filter, Event.isCacheWrite]
  · intro hdel
    constructor
    · simp [hdel, Cache.del]
    · intro k hk
      simp [hdel, Cache.del, Function.update, hk]
  · intro hdel
    simp [hdel]
  · intro hn hp
    have he : input.Email ≠ "" := by
      intro he
      apply hd
      rw [hm]
      simp [hn, hp, he]
    simp [Data, hm, hn, hp, he]

/-- C9 amended, at the first case of `TestUpdate`. -/
theorem Update_writes_merged_and_invalidates_witness :
    (Update world1Cached Oracle.allOK handle1 renameInput).err = none ∧
    (Update world1Cached Oracle.allOK handle1 renameInput).log.filter Event.isStmt =
      [Event.update "NewUser1" "user1@email.com" "+628123456789" 1] ∧
    (Update world1Cached Oracle.allOK handle1 renameInput).world.cache "contact:1" = [] :=
  ⟨(Update_writes_merged_and_invalidates world1Cached Oracle.allOK handle1 renameInput
      (by decide) (by decide) rfl).1,
    (Update_writes_merged_and_invalidates world1Cached Oracle.allOK handle1 renameInput
      (by decide) (by decide) rfl).2.1,
    ((Update_writes_merged_and_invalidates world1Cached Oracle.allOK handle1 renameInput
      (by decide) (by decide) rfl).2.2.2.2.2.2.1 rfl).1⟩

/-! ## Malformed input -/

/-- C11: an input that fails the Validator makes `Create` return an error
without sending anything to the store or the cache; an input whose merged
result fails the Validator makes `Update` return an error, send nothing to
the store or the cache, and leave the backends and the record unchanged. -/
theorem invalid_input_never_reaches_store (w : World) (o : Oracle) (c : contact)
    (x input : ContactData) :
    (validateContact x = false →
      (Create w o x).err = some Error.invalidContactData ∧
      (Create w o x).contact = none ∧
      (Create w o x).log = [] ∧
      (Create w o x).world = w) ∧
    (validateContact (mergeInput c.data input) = false →
      (Update w o c input).err ≠ none ∧
      ((Update w o c input).err = some Error.contactDataInvalid ∨
        (Update w o c input).err = some Error.noDataUpdated) ∧
      (Update w o c input).log = [] ∧
      (Update w o c input).world = w ∧
      (Update w o c input).self = c ∧
      Data (Update w o c input).self = Data c) := by
  constructor
  · intro hv
    simp [Create, hv]
  · intro hv
    by_cases hd : mergeInput c.data input = c.data
    · simp [Update, hd]
    · simp [Update, hd, hv]

/-- C11, at the record of `TestValidate` whose name is too short. -/
theorem invalid_input_never_reaches_store_witness :
    (Create world1 Oracle.allOK { user1 with Name := "Ad" }).err
      = some Error.invalidContactData ∧
    (Create world1 Oracle.allOK { user1 with Name := "Ad" }).log = [] ∧
    (Update world1 Oracle.allOK handle1 { emptyInput with Name := "Ad" }).log = [] ∧
    (Update world1 Oracle.allOK handle1 { emptyInput with Name := "Ad" }).self = handle1 :=
  ⟨((invalid_input_never_reaches_store world1 Oracle.allOK handle1 { user1 with Name := "Ad" }
      { emptyInput with Name := "Ad" }).1 (by decide)).1,
    ((invalid_input_never_reaches_store world1 Oracle.allOK handle1 { user1 with Name := "Ad" }
      { emptyInput with Name := "Ad" }).1 (by decide)).2.2.1,
    ((invalid_input_never_reaches_store world1 Oracle.allOK handle1 { user1 with Name := "Ad" }
      { emptyInput with Name := "Ad" }).2 (by decide)).2.2.1,
    ((invalid_input_never_reaches_store world1 Oracle.allOK handle1 { user1 with Name := "Ad" }
      { emptyInput with Name := "Ad" }).2 (by decide)).2.2.2.2.1⟩

/-! ## What the matcher accepts -/

theorem matchFull_fail (cs : List Char) : Regex.matchFull .fail cs = false := by
  induction cs with
  | nil => rfl
  | cons c t ih => simpa [Regex.matchFull, Regex.deriv] using ih

theorem matchFull_eps (cs : List Char) : Regex.matchFull .eps cs = true ↔ cs = [] := by
  cases cs with
  | nil => simp [Regex.matchFull, Regex.nullable]
  | cons c t => simp [Regex.matchFull, Regex.deriv, matchFull_fail]

theorem matchFull_alt (a b : Regex) (cs : List Char) :
    Regex.matchFull (.alt a b) cs = (Regex.matchFull a cs || Regex.matchFull b cs) := by
  induction cs generalizing a b with
  | nil => simp [Regex.matchFull, Regex.nullable]
  | cons c t ih => simp only [Regex.matchFull, Regex.deriv, ih]

theorem matchFull_seq (a b : Regex) (cs : List Char) :
    Regex.matchFull (.seq a b) cs = true ↔
      ∃ xs ys, cs = xs ++ ys ∧ Regex.matchFull a xs = true ∧ Regex.matchFull b ys = true := by
  induction cs generalizing a b with
  | nil =>
    simp only [Regex.matchFull, Regex.nullable, Bool.and_eq_true]
    constructor
    · intro h
      exact ⟨[], [], rfl, h.1, h.2⟩
    · rintro ⟨xs, ys, hsplit, ha, hb⟩
      have hx : xs = [] := by
        cases xs with
        | nil => rfl
        | cons _ _ => simp at hsplit
      have hy : ys = [] := by
        cases ys with
        | nil => rfl
        | cons _ _ => simp at hsplit
      subst hx hy
      exact ⟨ha, hb⟩
  | cons c t ih =>
    have hstep : Regex.matchFull (.seq a b) (c :: t) = true ↔
        (Regex.matchFull (.seq (Regex.deriv a c) b) t = true ∨
          (Regex.nullable a = true ∧ Regex.matchFull (Regex.deriv b c) t = true)) := by
      by_cases hn : Regex.nullable a = true
      · simp [Regex.matchFull, Regex.deriv, hn, matchFull_alt]
      · simp [Regex.matchFull, Regex.deriv, hn]
    rw [hstep, ih]
    constructor
    · rintro (⟨xs, ys, hsplit, ha, hb⟩ | ⟨hn, hb⟩)
      · exact ⟨c :: xs, ys, by simp [hsplit], ha, hb⟩
      · exact ⟨[], c :: t, rfl, hn, hb⟩
    · rintro ⟨xs, ys, hsplit, ha, hb⟩
      cases xs with
      | nil =>
        right
        simp only [List.nil_append] at hsplit
        subst hsplit
        exact ⟨ha, hb⟩
      | cons x xs =>
        left
        simp only [List.cons_append, List.cons.injEq] at hsplit
        obtain ⟨hx, ht⟩ := hsplit
        subst hx
        exact ⟨xs, ys, ht, ha, hb⟩

theorem matchFull_cls_step (p : Char → Bool) (c : Char) (r : Regex) (t : List Char) :
    Regex.matchFull (.seq (if p c = true then .eps else .fail) r) t = true ↔
      p c = true ∧ Regex.matchFull r t = true := by
  rw [matchFull_seq]
  by_cases hp : p c = true
  · simp only [hp, if_true, matchFull_eps, true_and]
    constructor
    · rintro ⟨xs, ys, hsplit, hx, hy⟩
      subst hx
      simp only [List.nil_append] at hsplit
      subst hsplit
      exact hy
    · intro h
      exact ⟨[], t, rfl, rfl, h⟩
  · simp [hp, matchFull_fail]

theorem matchFull_rep_cls (p : Char → Bool) (lo : Nat) (hi : Option Nat) (cs : List Char) :
    Regex.matchFull (.rep (.cls p) lo hi) cs = true ↔
      lo ≤ cs.length ∧ (∀ h, hi = some h → cs.length ≤ h) ∧ cs.all p = true := by
  induction cs generalizing lo hi with
  | nil =>
    simp [Regex.matchFull, Regex.nullable]
  | cons c t ih =>
    cases hi with
    | none =>
      simp only [Regex.matchFull, Regex.deriv]
      rw [matchFull_cls_step, ih]
      simp only [List.length_cons, List.all_cons, Bool.and_eq_true]
      constructor
      · rintro ⟨hp, hlo, _, hall⟩
        exact ⟨by omega, by simp, hp, hall⟩
      · rintro ⟨hlo, _, hp, hall⟩
        exact ⟨hp, by omega, by simp, hall⟩
    | some h =>
      cases h with
      | zero =>
        simp [Regex.matchFull, Regex.deriv, matchFull_fail]
      | succ h =>
        simp only [Regex.matchFull, Regex.deriv]
        rw [matchFull_cls_step, ih]
        simp only [List.length_cons, List.all_cons, Bool.and_eq_true, Option.some.injEq,
          forall_eq']
        constructor
        · rintro ⟨hp, hlo, hhi, hall⟩
          exact ⟨by omega, by omega, hp, hall⟩
        · rintro ⟨hlo, hhi, hp, hall⟩
          exact ⟨hp, by omega, by omega, hall⟩

/-! ## The name check -/

theorem clsWordSpace_eq (c : Char) : clsWordSpace c = (isWordChar c || c == ' ') := by
  simp only [clsWordSpace, isWordChar, inRange, Char.isAlphanum, Char.isAlpha, Char.isUpper,
    Char.isLower, Char.isDigit, Char.toNat]
  have h : ∀ (a b : UInt32), decide (a ≤ b) = decide (a.toNat ≤ b.toNat) := by
    intro a b; rfl
  simp only [ge_iff_le, h]
  simp only [UInt32.toNat]
  have e1 : ('0' : Char).val.toBitVec.toNat = 48 := rfl
  have e2 : ('9' : Char).val.toBitVec.toNat = 57 := rfl
  have e3 : ('A' : Char).val.toBitVec.toNat = 65 := rfl
  have e4 : ('Z' : Char).val.toBitVec.toNat = 90 := rfl
  have e5 : ('a' : Char).val.toBitVec.toNat = 97 := rfl
  have e6 : ('z' : Char).val.toBitVec.toNat = 122 := rfl
  have f1 : (UInt32.toBitVec 48).toNat = 48 := rfl
  have f2 : (UInt32.toBitVec 57).toNat = 57 := rfl
  have f3 : (UInt32.toBitVec 65).toNat = 65 := rfl
  have f4 : (UInt32.toBitVec 90).toNat = 90 := rfl
  have f5 : (UInt32.toBitVec 97).toNat = 97 := rfl
  have f6 : (UInt32.toBitVec 122).toNat = 122 := rfl
  simp only [e1, e2, e3, e4, e5, e6, f1, f2, f3, f4, f5, f6]
  rw [show (c == '_') = decide (c = '_') from rfl, show (c == ' ') = decide (c = ' ') from rfl]
  generalize decide (48 ≤ c.val.toBitVec.toNat) = a1
  generalize decide (c.val.toBitVec.toNat ≤ 57) = a2
  generalize decide (65 ≤ c.val.toBitVec.toNat) = a3
  generalize decide (c.val.toBitVec.toNat ≤ 90) = a4
  generalize decide (97 ≤ c.val.toBitVec.toNat) = a5
  generalize decide (c.val.toBitVec.toNat ≤ 122) = a6
  generalize decide (c = '_') = a7
  generalize decide (c = ' ') = a8
  cases a1 <;> cases a2 <;> cases a3 <;> cases a4 <;> cases a5 <;> cases a6 <;> cases a7 <;>
    cases a8 <;> rfl

theorem nameMatch_iff (s : String) :
    nameMatch s = true ↔ 3 ≤ s.length ∧ ∀ c ∈ s.data, isWordChar c = true ∨ c = ' ' := by
  unfold nameMatch nameRegexp
  rw [matchFull_rep_cls]
  have hlen : s.length = s.data.length := rfl
  simp only [hlen, List.all_eq_true, clsWordSpace_eq, Bool.or_eq_true, beq_iff_eq]
  constructor
  · rintro ⟨h3, _, hall⟩
    exact ⟨h3, hall⟩
  · rintro ⟨h3, hall⟩
    exact ⟨h3, by simp, hall⟩

/-- C15: the name check accepts a string exactly when it has at least 3
characters, each a word character (ASCII letter, digit or underscore) or a
space; `validateContact` rejects every record whose name is shorter than 3
characters (such as "Ad") or holds another character, and "User1",
"Alvin Antonius" and "sdfkh  23" pass the name check. -/
theorem name_check_accepts_exactly (s : String) :
    (nameMatch s = true ↔ 3 ≤ s.length ∧ ∀ c ∈ s.data, isWordChar c = true ∨ c = ' ') ∧
    (∀ r : ContactData, r.Name.length < 3 → validateContact r = false) ∧
    (∀ r : ContactData, (∃ c ∈ r.Name.data, isWordChar c = false ∧ c ≠ ' ') →
      validateContact r = false) ∧
    (∀ r : ContactData, r.Name = "Ad" → validateContact r = false) ∧
    nameMatch "User1" = true ∧ nameMatch "Alvin Antonius" = true ∧
    nameMatch "sdfkh  23" = true := by
  have hrej : ∀ r : ContactData, nameMatch r.Name = false → validateContact r = false := by
    intro r h
    simp [validateContact, h]
  refine ⟨nameMatch_iff s, ?_, ?_, ?_, by decide, by decide, by decide⟩
  · intro r hlen
    apply hrej
    by_contra hm
    have h := (nameMatch_iff r.Name).mp (by simpa using hm)
    omega
  · rintro r ⟨c, hc, hw, hsp⟩
    apply hrej
    by_contra hm
    have h := (nameMatch_iff r.Name).mp (by simpa using hm)
    rcases h.2 c hc with h1 | h1
    · rw [hw] at h1
      exact absurd h1 (by simp)
    · exact hsp h1
  · intro r hn
    apply hrej
    rw [hn]
    decide

/-! ## The phone check -/

theorem plus_not_digit : isDigit '+' = false := by decide

theorem phoneMatch_iff (s : String) :
    phoneMatch s = true ↔
      ∃ ds : List Char, (s.data = ds ∨ s.data = '+' :: ds) ∧
        8 ≤ ds.length ∧ ds.length ≤ 15 ∧ ∀ c ∈ ds, isDigit c = true := by
  unfold phoneMatch phoneRegexp
  rw [matchFull_seq]
  simp only [matchFull_rep_cls, Option.some.injEq, forall_eq', List.all_eq_true]
  constructor
  · rintro ⟨xs, ys, hsplit, ⟨_, hx1, hxp⟩, ⟨h8, h15, hyd⟩⟩
    refine ⟨ys, ?_, h8, h15, hyd⟩
    cases xs with
    | nil =>
      left
      simpa using hsplit
    | cons x xs =>
      cases xs with
      | nil =>
        right
        have hx : x = '+' := by
          have := hxp x (by simp)
          simpa [clsPlus] using this
        rw [hsplit, hx]
        rfl
      | cons _ _ =>
        simp only [List.length_cons] at hx1
        omega
  · rintro ⟨ds, hcs, h8, h15, hd⟩
    rcases hcs with hcs | hcs
    · exact ⟨[], ds, by simp [hcs], ⟨by simp, by simp, by simp⟩, ⟨h8, h15, hd⟩⟩
    · exact ⟨[ '+' ], ds, by simp [hcs], ⟨by simp, by simp, by simp [clsPlus]⟩, ⟨h8, h15, hd⟩⟩

/-- C16: the phone check accepts a string exactly when it is an optional
single leading `+` followed by between 8 and 15 decimal digits and nothing
else; `validateContact` rejects every record whose phone has fewer than 8 or
more than 15 digits, a `+` anywhere but first, or any other character, such
as "678+9" or the empty string. -/
theorem phone_check_accepts_exactly (s : String) :
    (phoneMatch s = true ↔
      ∃ ds : List Char, (s.data = ds ∨ s.data = '+' :: ds) ∧
        8 ≤ ds.length ∧ ds.length ≤ 15 ∧ ∀ c ∈ ds, isDigit c = true) ∧
    (∀ r : ContactData, (r.Phone.data.filter isDigit).length < 8 ∨
        15 < (r.Phone.data.filter isDigit).length → validateContact r = false) ∧
    (∀ r : ContactData, '+' ∈ r.Phone.data.tail → validateContact r = false) ∧
    (∀ r : ContactData, (∃ c ∈ r.Phone.data, c ≠ '+' ∧ isDigit c = false) →
      validateContact r = false) ∧
    (∀ r : ContactData, r.Phone = "678+9" ∨ r.Phone = "" → validateContact r = false) := by
  have hrej : ∀ r : ContactData, phoneMatch r.Phone = false → validateContact r = false := by
    intro r h
    simp [validateContact, h]
  have hform : ∀ r : ContactData, ¬ phoneMatch r.Phone = false →
      ∃ ds : List Char, (r.Phone.data = ds ∨ r.Phone.data = '+' :: ds) ∧
        8 ≤ ds.length ∧ ds.length ≤ 15 ∧ ∀ c ∈ ds, isDigit c = true := by
    intro r hm
    exact (phoneMatch_iff r.Phone).mp (by simpa using hm)
  refine ⟨phoneMatch_iff s, ?_, ?_, ?_, ?_⟩
  · intro r hcount
    apply hrej
    by_contra hm
    obtain ⟨ds, hcs, h8, h15, hd⟩ := hform r hm
    have hfilter : ds.filter isDigit = ds := List.filter_eq_self.mpr hd
    have hall : r.Phone.data.filter isDigit = ds := by
      rcases hcs with hcs | hcs
      · rw [hcs, hfilter]
      · rw [hcs, List.filter_cons, plus_not_digit]
        simpa using hfilter
    rw [hall] at hcount
    omega
  · intro r hplus
    apply hrej
    by_contra hm
    obtain ⟨ds, hcs, _, _, hd⟩ := hform r hm
    have hmem : '+' ∈ ds := by
      rcases hcs with hcs | hcs
      · rw [hcs] at hplus
        exact List.mem_of_mem_tail hplus
      · rw [hcs] at hplus
        simpa using hplus
    have := hd '+' hmem
    rw [plus_not_digit] at this
    exact absurd this (by simp)
  · rintro r ⟨c, hc, hne, hnd⟩
    apply hrej
    by_contra hm
    obtain ⟨ds, hcs, _, _, hd⟩ := hform r hm
    have hmem : c ∈ ds := by
      rcases hcs with hcs | hcs
      · rw [hcs] at hc
        exact hc
      · rw [hcs] at hc
        rcases List.mem_cons.mp hc with h1 | h1
        · exact absurd h1 hne
        · exact h1
    have := hd c hmem
    rw [hnd] at this
    exact absurd this (by simp)
  · intro r hp
    apply hrej
    rcases hp with hp | hp <;> rw [hp] <;> decide

/-! ## The handler `ListContact` -/

theorem queryList_error (s : Store) (ok : Bool) (take offset : Int) (e : Error)
    (h : queryList s ok take offset = .error e) : e = Error.sqlFailure := by
  unfold queryList at h
  split at h
  · exact (Except.error.inj h).symm
  · split at h
    · exact (Except.error.inj h).symm
    · exact absurd h (by simp)

theorem List_not_rejected (w : World) (o : Oracle) (take page : Int)
    (hg : ¬ (take ≤ 0 ∨ page ≤ 0)) :
    (pkgContacts.List w o take page).err ≠ some Error.invalidInput := by
  unfold pkgContacts.List
  rw [if_neg hg]
  cases hq : queryList w.store o.stmtOK take (wrapInt64 (take * (page - 1))) with
  | error e =>
    have he := queryList_error _ _ _ _ _ hq
    simp only [hq, he]
    simp
  | ok rows =>
    simp only [hq]
    simp

theorem List_rejects_negative (w : World) (o : Oracle) (t p : Int) (hneg : t < 0 ∨ p < 0) :
    (pkgContacts.List w o (normalizeTake t) (normalizePage p)).err
      = some Error.invalidInput := by
  have hg : normalizeTake t ≤ 0 ∨ normalizePage p ≤ 0 := by
    rcases hneg with h | h
    · left
      have h2 : ¬ (t = 0 ∨ t ≥ 100) := by omega
      simp only [normalizeTake, h2, if_false]
      omega
    · right
      have h2 : ¬ p = 0 := by omega
      simp only [normalizePage, h2, if_false]
      omega
  simp [pkgContacts.List, hg]

/-- C14 as stated fails on a negative value: a form value `take=-5` is
parsed to -5, passed to `List` as it is and rejected there, and the handler
answers 500; likewise for a negative page. -/
theorem ListContact_passes_negative_values :
    listArgs "-5" "" = (-5, 1) ∧
    (pkgContacts.List world1 Oracle.allOK (listArgs "-5" "").1 (listArgs "-5" "").2).err
      = some Error.invalidInput ∧
    ListContact world1 Oracle.allOK "-5" "" = { status := 500, data := none } ∧
    listArgs "10" "-2" = (10, -2) ∧
    ListContact world1 Oracle.allOK "10" "-2" = { status := 500, data := none } := by
  decide

/-- C14, amended: for parsed values that are not negative (an absent value
parses to 0, and so does a value that is not a decimal integer, short of an
overflow of its leading digits), the handler passes `List` a take between 1
and 99 (5 when it was 0 or at least 100, else the value itself) and a page of
at least 1 (1 when it was 0, else the value itself), which `List` does not
reject. A negative take or page is passed on unchanged and rejected by `List`,
and the handler answers 500. -/
theorem ListContact_normalizes (w : World) (o : Oracle) (take page : Int)
    (ht : 0 ≤ take) (hp : 0 ≤ page) :
    (1 ≤ normalizeTake take ∧ normalizeTake take ≤ 99) ∧
    (take = 0 ∨ 100 ≤ take → normalizeTake take = 5) ∧
    (1 ≤ take → take ≤ 99 → normalizeTake take = take) ∧
    1 ≤ normalizePage page ∧
    (page = 0 → normalizePage page = 1) ∧
    (1 ≤ page → normalizePage page = page) ∧
    (pkgContacts.List w o (normalizeTake take) (normalizePage page)).err
      ≠ some Error.invalidInput ∧
    (parseInt "").1 = 0 ∧
    (∀ v : String, isNumeral v.data = false →
      digitsValue ((signBody v.data).2.takeWhile isDigit) 0 ≤ maxUint64 → (parseInt v).1 = 0) ∧
    (∀ t p : Int, t < 0 ∨ p < 0 →
      (t < 0 → normalizeTake t = t) ∧ (p < 0 → normalizePage p = p) ∧
      (pkgContacts.List w o (normalizeTake t) (normalizePage p)).err
        = some Error.invalidInput) ∧
    (∀ takeValue pageValue : String,
      (parseInt takeValue).1 < 0 ∨ (parseInt pageValue).1 < 0 →
      ListContact w o takeValue pageValue = { status := 500, data := none }) := by
  have hT : 1 ≤ normalizeTake take ∧ normalizeTake take ≤ 99 := by
    unfold normalizeTake
    split <;> omega
  have hP : 1 ≤ normalizePage page := by
    unfold normalizePage
    split <;> omega
  refine ⟨hT, ?_, ?_, hP, ?_, ?_, ?_, by decide,
    fun v hv hlead => parseIntChars_of_not_numeral v.data hv hlead, ?_, ?_⟩
  · intro h
    simp [normalizeTake, h]
  · intro h1 h2
    have h : ¬ (take = 0 ∨ take ≥ 100) := by omega
    simp [normalizeTake, h]
  · intro h
    simp [normalizePage, h]
  · intro h
    have h0 : ¬ page = 0 := by omega
    simp [normalizePage, h0]
  · have hg : ¬ (normalizeTake take ≤ 0 ∨ normalizePage page ≤ 0) := by omega
    exact List_not_rejected w o _ _ hg
  · intro t p hneg
    have h1 : t < 0 → normalizeTake t = t := by
      intro h
      have h' : ¬ (t = 0 ∨ t ≥ 100) := by omega
      simp [normalizeTake, h']
    have h2 : p < 0 → normalizePage p = p := by
      intro h
      have h' : ¬ p = 0 := by omega
      simp [normalizePage, h']
    refine ⟨h1, h2, ?_⟩
    have hp' : 1 ≤ normalizePage p ∨ normalizePage p = p := by
      unfold normalizePage
      split <;> omega
    have ht' : (1 ≤ normalizeTake t ∧ normalizeTake t ≤ 99) ∨ normalizeTake t = t := by
      unfold normalizeTake
      split <;> omega
    have hg : normalizeTake t ≤ 0 ∨ normalizePage p ≤ 0 := by
      rcases hneg with h | h
      · left
        rw [h1 h]
        omega
      · right
        rw [h2 h]
        omega
    simp [pkgContacts.List, hg]
  · intro takeValue pageValue hneg
    have herr := List_rejects_negative w o _ _ hneg
    simp [ListContact, listArgs, herr]

/-- C14 amended, at the request `?take=10` of `TestListContact`. -/
theorem ListContact_normalizes_witness :
    (1 ≤ normalizeTake 10 ∧ normalizeTake 10 ≤ 99) ∧ normalizeTake 10 = 10 ∧
    normalizePage 0 = 1 :=
  ⟨(ListContact_normalizes world1 Oracle.allOK 10 0 (by decide) (by decide)).1,
    (ListContact_normalizes world1 Oracle.allOK 10 0 (by decide) (by decide)).2.2.1
      (by decide) (by decide),
    (ListContact_normalizes world1 Oracle.allOK 10 0 (by decide) (by decide)).2.2.2.2.1 rfl⟩

/-! ## Delete -/

theorem eraseP_no_id (l : List ContactData) (id : Int)
    (hk : (l.map (fun r => r.ID)).Nodup) :
    ∀ r ∈ l.eraseP (fun r => decide (r.ID = id)), r.ID ≠ id := by
  induction l with
  | nil => simp
  | cons a l ih =>
    simp only [List.map_cons, List.nodup_cons, List.mem_map, not_exists, not_and] at hk
    obtain ⟨hnot, hnd⟩ := hk
    by_cases ha : a.ID = id
    · simp only [List.eraseP_cons, ha, decide_True, cond_true]
      intro r hr hrid
      exact hnot r hr (by rw [hrid, ha])
    · simp only [List.eraseP_cons, ha, decide_False, cond_false, List.mem_cons]
      rintro r (hr | hr)
      · rw [hr]; exact ha
      · exact ih hnd r hr

theorem no_row_after_delete (s : Store) (id : Int) (hk : s.Keyed) :
    ∀ r ∈ (s.delete id).rows, r.ID ≠ id :=
  eraseP_no_id s.rows id hk

theorem mem_rows_delete (s : Store) (id : Int) (hk : s.Keyed) (r : ContactData) :
    r ∈ (s.delete id).rows ↔ r ∈ s.rows ∧ r.ID ≠ id := by
  constructor
  · intro hr
    exact ⟨List.mem_of_mem_eraseP hr, no_row_after_delete s id hk r hr⟩
  · rintro ⟨hr, hne⟩
    have hrows : (s.delete id).rows = s.rows.eraseP (fun r => decide (r.ID = id)) := rfl
    rw [hrows, List.mem_eraseP_of_neg (by simpa using hne)]
    exact hr

theorem selectByID_delete_self (s : Store) (id : Int) (hk : s.Keyed) :
    (s.delete id).selectByID id = none := by
  unfold Store.selectByID
  rw [List.find?_eq_none]
  intro r hr
  simpa using no_row_after_delete s id hk r hr

/-- C13 as stated fails when the cache command does not go through:
`Delete` succeeds and the row is gone, but the entry under the key of the
record is still cached, and a following `Get` of that ID is served from the
cache with the deleted record, without a statement to the store. -/
theorem Delete_stale_entry_when_del_fails :
    (Delete world1Cached delFails handle1).err = none ∧
    (Delete world1Cached delFails handle1).world.store.selectByID 1 = none ∧
    (Delete world1Cached delFails handle1).world.cache (getCacheKey 1) = cacheData user1 ∧
    (Get (Delete world1Cached delFails handle1).world Oracle.allOK 1).contact
      = some handle1 ∧
    (Get (Delete world1Cached delFails handle1).world Oracle.allOK 1).log.filter Event.isStmt
      = [] := by
  decide

/-- C13, amended: when the delete statement and its commit succeed, on a
table whose IDs are distinct and for a handle that carries the cache key of
its ID, `Delete` returns nil, the table has no row with that ID and its
other rows are unchanged, and a `DEL` of the key `contact:<ID>` is sent. When
that cache command succeeds, the cache has no entry under the key, every
other key is unchanged, and a following `Get` of the ID queries the table
and finds no record. A failed `DEL` leaves the whole cache as it was. -/
theorem Delete_removes_row_and_entry (w : World) (o : Oracle) (c : contact)
    (hs : o.stmtOK = true) (hc : o.commitOK = true)
    (hkeyed : w.store.Keyed) (hk : HandleKeyed c) :
    (Delete w o c).err = none ∧
    (Delete w o c).world.store.selectByID c.data.ID = none ∧
    (∀ r, r ∈ (Delete w o c).world.store.rows ↔ r ∈ w.store.rows ∧ r.ID ≠ c.data.ID) ∧
    (∀ id, id ≠ c.data.ID →
      (Delete w o c).world.store.selectByID id = w.store.selectByID id) ∧
    (Delete w o c).log.filter Event.isCacheWrite = [Event.del (getCacheKey c.data.ID)] ∧
    (o.delOK = true →
      (Delete w o c).world.cache (getCacheKey c.data.ID) = [] ∧
      (∀ k, k ≠ getCacheKey c.data.ID → (Delete w o c).world.cache k = w.cache k) ∧
      ∀ o2 : Oracle,
        (Get (Delete w o c).world o2 c.data.ID).contact = none ∧
        Event.selectByID c.data.ID ∈ (Get (Delete w o c).world o2 c.data.ID).log) ∧
    (o.delOK = false → (Delete w o c).world.cache = w.cache) := by
  unfold HandleKeyed at hk
  have hdel : Delete w o c =
      { err := none, self := c,
        world := { store := w.store.delete c.data.ID,
                   cache := if o.delOK = true then w.cache.del c.cacheKey else w.cache },
        log := [.begin, .delete c.data.ID, .commit, .del c.cacheKey, .rollback] } := by
    simp [Delete, hs, hc]
  rw [hdel]
  have hnone := selectByID_delete_self w.store c.data.ID hkeyed
  refine ⟨rfl, hnone, ?_, ?_, ?_, ?_, ?_⟩
  · intro r
    exact mem_rows_delete w.store c.data.ID hkeyed r
  · intro id hid
    exact selectByID_delete_ne _ _ _ hid
  · simp [List.filter, Event.isCacheWrite, hk]
  · intro hd
    simp only [hd, if_true]
    have hcache : (w.cache.del c.cacheKey) (getCacheKey c.data.ID) = [] := by
      rw [hk]
      simp [Cache.del]
    refine ⟨hcache, ?_, ?_⟩
    · intro k hkne
      show Function.update w.cache c.cacheKey [] k = w.cache k
      rw [hk]
      exact Function.update_noteq hkne _ _
    · intro o2
      have hmap : (if o2.hgetallOK = true then
          Cache.hgetall (w.cache.del c.cacheKey) (getCacheKey c.data.ID) else [])
            = ([] : FieldMap) := by
        by_cases hg : o2.hgetallOK = true
        · rw [if_pos hg]
          exact hcache
        · rw [if_neg hg]
      by_cases hq : o2.stmtOK = true
      · simp [Get, hmap, queryRowGet, hq, hnone]
      · simp [Get, hmap, queryRowGet, hq]
  · intro hd
    simp [hd]

/-- C13 amended, at `TestDelete` over a table holding `user1`, cached. -/
theorem Delete_removes_row_and_entry_witness :
    (Delete world1Cached Oracle.allOK handle1).err = none ∧
    (Delete world1Cached Oracle.allOK handle1).world.store.selectByID 1 = none ∧
    (Delete world1Cached Oracle.allOK handle1).world.cache (getCacheKey 1) = [] :=
  ⟨(Delete_removes_row_and_entry world1Cached Oracle.allOK handle1 rfl rfl (by decide)
      (by decide)).1,
    (Delete_removes_row_and_entry world1Cached Oracle.allOK handle1 rfl rfl (by decide)
      (by decide)).2.1,
    ((Delete_removes_row_and_entry world1Cached Oracle.allOK handle1 rfl rfl (by decide)
      (by decide)).2.2.2.2.2.1 rfl).1⟩

/-! ## List -/

theorem wrapInt64_of_inRange (i : Int) (h : InInt64 i) : wrapInt64 i = i := by
  obtain ⟨h1, h2⟩ := h
  unfold minInt64 at h1
  unfold maxInt64 at h2
  unfold wrapInt64
  omega

theorem sortedRows_sorted (s : Store) :
    s.sortedRows.Pairwise (fun a b : ContactData => a.ID ≤ b.ID) := by
  haveI : IsTotal ContactData (fun a b => a.ID ≤ b.ID) := ⟨fun a b => le_total a.ID b.ID⟩
  haveI : IsTrans ContactData (fun a b => a.ID ≤ b.ID) := ⟨fun a b c h1 h2 => le_trans h1 h2⟩
  exact List.sorted_insertionSort (fun a b : ContactData => a.ID ≤ b.ID) s.rows

theorem sortedRows_perm (s : Store) : s.sortedRows.Perm s.rows :=
  List.perm_insertionSort (fun a b : ContactData => a.ID ≤ b.ID) s.rows

theorem sortedRows_strict (s : Store) (hk : s.Keyed) :
    s.sortedRows.Pairwise (fun a b : ContactData => a.ID < b.ID) := by
  have hnd : (s.sortedRows.map (fun r => r.ID)).Nodup :=
    ((sortedRows_perm s).map (fun r : ContactData => r.ID)).nodup_iff.mpr hk
  have hne : s.sortedRows.Pairwise (fun a b : ContactData => a.ID ≠ b.ID) := by
    unfold List.Nodup at hnd
    rw [List.pairwise_map] at hnd
    exact hnd
  exact ((sortedRows_sorted s).and hne).imp (fun h => lt_of_le_of_ne h.1 h.2)

theorem specList_subset (s : Store) (take page : Int) :
    ∀ r ∈ specList s take page, r ∈ s.rows := by
  intro r hr
  unfold specList at hr
  exact (sortedRows_perm s).subset (List.mem_of_mem_drop (List.mem_of_mem_take hr))

theorem specList_sorted (s : Store) (take page : Int) :
    (specList s take page).Pairwise (fun a b : ContactData => a.ID ≤ b.ID) := by
  unfold specList
  exact ((sortedRows_sorted s).sublist (List.drop_sublist _ _)).sublist (List.take_sublist _ _)

theorem List_valid (w : World) (o : Oracle) (take page : Int)
    (ht : 0 < take) (hp : 0 < page) (hfit : take * (page - 1) ≤ maxInt64) :
    pkgContacts.List w o take page =
      if o.stmtOK = true then
        { list := specList w.store take page, err := none,
          log := [.list take (take * (page - 1))] }
      else
        { list := [], err := some Error.sqlFailure, log := [.list take (take * (page - 1))] } := by
  have hnn : 0 ≤ take * (page - 1) := Int.mul_nonneg (by omega) (by omega)
  have hw : wrapInt64 (take * (page - 1)) = take * (page - 1) := by
    apply wrapInt64_of_inRange
    constructor
    · unfold minInt64
      omega
    · exact hfit
  have hg : ¬ (take ≤ 0 ∨ page ≤ 0) := by omega
  have hneg : ¬ (take < 0 ∨ take * (page - 1) < 0) := by omega
  unfold pkgContacts.List
  rw [if_neg hg]
  simp only [hw]
  by_cases hq : o.stmtOK = true
  · simp [queryList, hq, hneg, specList, Store.list]
  · simp [queryList, hq]

theorem page_before_next (s : Store) (hk : s.Keyed) (take page : Int)
    (ht : 0 < take) (hp : 0 < page) :
    ∀ a ∈ specList s take page, ∀ b ∈ specList s take (page + 1), a.ID < b.ID := by
  intro a ha b hb
  unfold specList at ha hb
  have hnn : 0 ≤ take * (page - 1) := Int.mul_nonneg (by omega) (by omega)
  have hsum : (take * (page + 1 - 1)).toNat = (take * (page - 1)).toNat + take.toNat := by
    have h1 : take * (page + 1 - 1) = take * (page - 1) + take := by ring
    rw [h1, Int.toNat_add hnn (by omega)]
  rw [hsum] at hb
  rw [List.take_drop] at ha
  have ha2 := List.mem_of_mem_drop ha
  have hb2 := List.mem_of_mem_take hb
  have hstrict := sortedRows_strict s hk
  rw [← List.take_append_drop ((take * (page - 1)).toNat + take.toNat) s.sortedRows,
    List.pairwise_append] at hstrict
  exact hstrict.2.2 a ha2 b hb2

/-- C12 as stated fails when `take * (page - 1)` does not fit in an
`int64`. For `take = 64` and `page = 2^58 + 1`, values the handler passes
on as they are, the offset sent is 0 and the first rows are returned, where
the stated reference skips `2^64` rows and returns none. For `take = 2` and
`page = 2^62 + 1` the offset sent is `-2^63`, which the database rejects, and
`List` returns an error with an empty list although both values are positive. -/
theorem List_offset_wraps :
    listArgs "64" "288230376151711745" = (64, 288230376151711745) ∧
    (pkgContacts.List world1 Oracle.allOK 64 288230376151711745).log = [Event.list 64 0] ∧
    (pkgContacts.List world1 Oracle.allOK 64 288230376151711745).list = [user1] ∧
    (64 : Int) * (288230376151711745 - 1) = 18446744073709551616 ∧
    specList world1.store 64 288230376151711745 = [] ∧
    (pkgContacts.List world1 Oracle.allOK 64 288230376151711745).list
      ≠ specList world1.store 64 288230376151711745 ∧
    listArgs "2" "4611686018427387905" = (2, 4611686018427387905) ∧
    (pkgContacts.List world1 Oracle.allOK 2 4611686018427387905).log
      = [Event.list 2 (-9223372036854775808)] ∧
    (pkgContacts.List world1 Oracle.allOK 2 4611686018427387905).err
      = some Error.sqlFailure ∧
    (pkgContacts.List world1 Oracle.allOK 2 4611686018427387905).list = [] := by
  decide

/-- C12, amended: `List` returns an error with an empty list and sends no
query when `take <= 0` or `page <= 0`. When both are positive and
`take * (page - 1)` fits in an `int64`, it queries with limit `take` and
offset `take * (page - 1)`; if the query succeeds it returns the rows sorted
by ascending ID with the first `take * (page - 1)` skipped and at most `take`
kept, and if the query fails an empty list with the error. Over an unchanged
table with distinct IDs, when `take * page` fits too, every ID of
`List(take, page)` is smaller than every ID of `List(take, page + 1)`.
Whether or not the product fits, the offset sent is the product wrapped to
64 bits. -/
theorem List_pages (w : World) (o : Oracle) (take page : Int) :
    (take ≤ 0 ∨ page ≤ 0 →
      (pkgContacts.List w o take page).list = [] ∧
      (pkgContacts.List w o take page).err = some Error.invalidInput ∧
      (pkgContacts.List w o take page).log = []) ∧
    (0 < take → 0 < page → take * (page - 1) ≤ maxInt64 →
      (pkgContacts.List w o take page).log = [Event.list take (take * (page - 1))] ∧
      (o.stmtOK = true →
        (pkgContacts.List w o take page).err = none ∧
        (pkgContacts.List w o take page).list
          = (w.store.sortedRows.drop (take * (page - 1)).toNat).take take.toNat) ∧
      (o.stmtOK = false →
        (pkgContacts.List w o take page).err = some Error.sqlFailure ∧
        (pkgContacts.List w o take page).list = [])) ∧
    w.store.sortedRows.Perm w.store.rows ∧
    w.store.sortedRows.Pairwise (fun a b : ContactData => a.ID ≤ b.ID) ∧
    (w.store.Keyed → 0 < take → 0 < page → take * page ≤ maxInt64 → o.stmtOK = true →
      ∀ a ∈ (pkgContacts.List w o take page).list,
        ∀ b ∈ (pkgContacts.List w o take (page + 1)).list, a.ID < b.ID ∧ a.ID ≠ b.ID) ∧
    (0 < take → 0 < page →
      (pkgContacts.List w o take page).log
        = [Event.list take (wrapInt64 (take * (page - 1)))]) := by
  refine ⟨?_, ?_, sortedRows_perm w.store, sortedRows_sorted w.store, ?_, ?_⟩
  · intro h
    simp [pkgContacts.List, h]
  · intro h1 h2 hfit
    rw [List_valid w o take page h1 h2 hfit]
    by_cases hq : o.stmtOK = true
    · simp [hq, specList]
    · simp [hq]
  · intro hk h1 h2 hfit hq a ha b hb
    have hfit1 : take * (page - 1) ≤ maxInt64 := by
      have h3 : take * (page - 1) = take * page - take := by ring
      omega
    rw [List_valid w o take page h1 h2 hfit1, if_pos hq] at ha
    rw [List_valid w o take (page + 1) h1 (by omega)
      (by rw [show page + 1 - 1 = page by ring]; exact hfit), if_pos hq] at hb
    have hlt := page_before_next w.store hk take page h1 h2 a ha b hb
    exact ⟨hlt, by omega⟩
  · intro h1 h2
    have hg : ¬ (take ≤ 0 ∨ page ≤ 0) := by omega
    unfold pkgContacts.List
    rw [if_neg hg]
    cases hq : queryList w.store o.stmtOK take (wrapInt64 (take * (page - 1))) with
    | error e => simp only [hq]
    | ok rows => simp only [hq]

/-- C12 amended, at pages 1 and 2 of size 2 over a table of three rows. -/
theorem List_pages_witness :
    (pkgContacts.List world3 Oracle.allOK 2 1).list = [user1, user2] ∧
    (pkgContacts.List world3 Oracle.allOK 2 2).list = [user3] ∧
    (pkgContacts.List world3 Oracle.allOK 0 3).err = some Error.invalidInput ∧
    ∀ a ∈ (pkgContacts.List world3 Oracle.allOK 2 1).list,
      ∀ b ∈ (pkgContacts.List world3 Oracle.allOK 2 (1 + 1)).list, a.ID < b.ID ∧ a.ID ≠ b.ID :=
  ⟨((List_pages world3 Oracle.allOK 2 1).2.1
      (by decide) (by decide) (by decide)).2.1 rfl |>.2,
    ((List_pages world3 Oracle.allOK 2 2).2.1
      (by decide) (by decide) (by decide)).2.1 rfl |>.2,
    ((List_pages world3 Oracle.allOK 0 3).1 (by decide)).2.1,
    (List_pages world3 Oracle.allOK 2 1).2.2.2.2.1
      (by decide) (by decide) (by decide) (by decide) rfl⟩

end Contacts
